import Mathlib

/-!
# Logging core of the CSI plugin (`src/utils/log`)

A shallow embedding of `file.go`, `console.go` and `log.go`, and the properties
of the size-threshold parser, the plain-text formatter, the console routing and
the file rotation.

Conventions of the embedding:

* a Go `string` / `[]byte` is a list of bytes (`GoString`), each byte a `Nat`;
* `int64` / `uint64` values are `Int` / `Nat` with explicit wrap-around;
* a Go function returning `(v, err)` returns a pair; a run-time panic is an explicit
  outcome;
* the library functions `strings.ToUpper` and `time.Time.Format` are arguments of the
  functions that call them; `strconv.ParseInt` and the fragment of `fmt.Sprintf` in use
  are written out;
* operating-system state (directory entries, file contents, the two console streams, the
  calls of `os.Rename`) is passed explicitly as a `World`; what the operating system
  decides on its own (how many bytes a write takes, what the clock shows) is an input of
  the call;
* runs are sequential: one call of `Fire` ends before the next begins.
-/

namespace HuaweiLog

/-! ## Go strings -/

/-- A Go string: a sequence of bytes. -/
abbrev GoString := List Nat

/-- Bytes of an ASCII literal. -/
def lit (s : String) : GoString := s.toList.map Char.toNat

/-- Go `len(s)` as an `int`. -/
def len (s : GoString) : Int := (s.length : Int)

/-- Go slice expression `s[lo:]`; `none` is the run-time panic "slice bounds out of range". -/
def sliceFrom (s : GoString) (lo : Int) : Option GoString :=
  if 0 ≤ lo ∧ lo ≤ len s then some (s.drop lo.toNat) else none

/-- Go slice expression `s[:hi]`; `none` is the run-time panic "slice bounds out of range". -/
def sliceTo (s : GoString) (hi : Int) : Option GoString :=
  if 0 ≤ hi ∧ hi ≤ len s then some (s.take hi.toNat) else none

/-- Go string comparison `a <= b`: lexicographic on bytes. -/
def strLE : GoString → GoString → Bool
  | [], _ => true
  | _ :: _, [] => false
  | a :: as, b :: bs => if a < b then true else if b < a then false else strLE as bs

/-- Go string comparison `a >= b`. -/
def strGE (a b : GoString) : Bool := strLE b a

/-- The ASCII path of `strings.ToUpper` on one byte: `a`..`z` lose 32. -/
def upperByte (b : Nat) : Nat := if 97 ≤ b ∧ b ≤ 122 then b - 32 else b

/-- The function `strings.ToUpper` restricted to what it does on ASCII input. -/
def asciiToUpper (s : GoString) : GoString := s.map upperByte

/-- The facts about the library function `strings.ToUpper` the development relies on:
on an all-ASCII string it upper-cases `a`..`z` byte by byte, and it never maps a
non-empty string to the empty one (every rune is mapped to a rune). -/
structure ToUpperLaws (toUpper : GoString → GoString) : Prop where
  ascii : ∀ s : GoString, (∀ b ∈ s, b < 128) → toUpper s = s.map upperByte
  nonempty : ∀ s : GoString, s ≠ [] → toUpper s ≠ []

/-! ## Machine integers -/

/-- Wrap an integer to `int64` (two's complement). -/
def wrap64 (x : Int) : Int := (x + 2 ^ 63) % 2 ^ 64 - 2 ^ 63

/-- Wrap a natural number to `uint64`. -/
def wrapU64 (x : Nat) : Nat := x % 2 ^ 64

/-- An integer is representable as `int64`. -/
def fitsInt64 (x : Int) : Prop := -(2 ^ 63) ≤ x ∧ x < 2 ^ 63

instance (x : Int) : Decidable (fitsInt64 x) := by unfold fitsInt64; infer_instance

/-! ## `strconv` -/

/-- The two error kinds of `strconv`: `ErrSyntax` and `ErrRange`. -/
inductive ErrKind
  | syntaxErr
  | rangeErr
  deriving DecidableEq, Repr

/-- Go `*strconv.NumError`. -/
structure NumError where
  func : GoString
  num : GoString
  err : ErrKind
  deriving DecidableEq, Repr

/-- The digit loop of `strconv.ParseUint(s, 10, 64)`, from accumulator `n`.
`s0` is the whole argument, reported in errors. -/
def parseUintLoop (s0 : GoString) : GoString → Nat → Except NumError Nat
  | [], n => .ok n
  | c :: cs, n =>
    if 48 ≤ c ∧ c ≤ 57 then
      let d := c - 48
      -- cutoff = maxUint64/10 + 1
      if n ≥ (2 ^ 64 - 1) / 10 + 1 then
        .error ⟨lit "ParseUint", s0, .rangeErr⟩
      else
        let n10 := wrapU64 (n * 10)
        let n1 := wrapU64 (n10 + d)
        if n1 < n10 ∨ n1 > 2 ^ 64 - 1 then
          .error ⟨lit "ParseUint", s0, .rangeErr⟩
        else
          parseUintLoop s0 cs n1
    else
      -- letters give a digit value of at least 10, every other byte is rejected
      .error ⟨lit "ParseUint", s0, .syntaxErr⟩

/-- Go `strconv.ParseUint(s, 10, 64)`. -/
def ParseUint (s : GoString) : Except NumError Nat :=
  if s = [] then .error ⟨lit "ParseUint", s, .syntaxErr⟩
  else parseUintLoop s s 0

/-- Go `strconv.ParseInt(s, 10, 64)`: the returned value and error. -/
def ParseInt (s0 : GoString) : Int × Option NumError :=
  match s0 with
  | [] => (0, some ⟨lit "ParseInt", s0, .syntaxErr⟩)
  | c :: rest =>
    let neg := decide (c = 45)
    let s := if c = 43 then rest else if c = 45 then rest else s0
    let cutoff : Nat := 2 ^ 63
    match ParseUint s with
    | .error e =>
      if e.err ≠ .rangeErr then (0, some ⟨lit "ParseInt", s0, e.err⟩)
      else
        -- ParseUint returned maxVal together with the range error
        let un : Nat := 2 ^ 64 - 1
        if !neg ∧ un ≥ cutoff then ((cutoff : Int) - 1, some ⟨lit "ParseInt", s0, .rangeErr⟩)
        else if neg ∧ un > cutoff then (-(cutoff : Int), some ⟨lit "ParseInt", s0, .rangeErr⟩)
        else (if neg then wrap64 (-(wrap64 un)) else wrap64 un, none)
    | .ok un =>
      if !neg ∧ un ≥ cutoff then ((cutoff : Int) - 1, some ⟨lit "ParseInt", s0, .rangeErr⟩)
      else if neg ∧ un > cutoff then (-(cutoff : Int), some ⟨lit "ParseInt", s0, .rangeErr⟩)
      else (if neg then wrap64 (-(wrap64 un)) else wrap64 un, none)

/-- Decimal digits of `n`, most significant first, in front of `acc`. -/
def digitsFuel : Nat → Nat → GoString → GoString
  | 0, _, acc => acc
  | fuel + 1, n, acc =>
    if n < 10 then (48 + n) :: acc
    else digitsFuel fuel (n / 10) ((48 + n % 10) :: acc)

/-- Go `strconv.FormatUint(n, 10)`. -/
def formatUint (n : Nat) : GoString := digitsFuel (n + 1) n []

/-- Go `strconv.Itoa` / the `%d` verb: decimal rendering of an integer. -/
def itoa (n : Int) : GoString :=
  if n < 0 then 45 :: formatUint n.natAbs else formatUint n.natAbs

/-! ## `file.go`: the size-threshold parser -/

/-- Result of a Go function returning `(int64, error)` that may also panic. -/
inductive Outcome
  | ret (sum : Int) (err : Option NumError)
  | panic
  deriving DecidableEq, Repr

/-- The function `getNumInByte` of `file.go`; `logFileSizeThreshold` is the value of the flag
`-logFileSize` and `toUpper` is `strings.ToUpper`. -/
def getNumInByte (toUpper : GoString → GoString) (logFileSizeThreshold : GoString) : Outcome :=
  let maxDataNum := toUpper logFileSizeThreshold
  match sliceFrom maxDataNum (len maxDataNum - 1) with
  | none => .panic
  | some lastLetter =>
    if strGE lastLetter (lit "0") && strLE lastLetter (lit "9") then
      match ParseInt maxDataNum with
      | (_, some err) => .ret 0 (some err)
      | (sum, none) => .ret sum none
    else
      match sliceTo maxDataNum (len maxDataNum - 1) with
      | none => .panic
      | some magnitude =>
        match ParseInt magnitude with
        | (_, some err) => .ret 0 (some err)
        | (sum, none) =>
          if lastLetter = lit "M" then .ret (wrap64 (sum * (1024 * 1024))) none
          else if lastLetter = lit "K" then .ret (wrap64 (sum * 1024)) none
          else .ret sum none

/-! ## `fmt`, `logrus` and `time`: the parts the package uses -/

/-- An operand of `fmt.Sprintf`: a Go `string` or an `int`. -/
inductive FmtArg
  | str (s : GoString)
  | int (n : Int)
  deriving DecidableEq, Repr

/-- The rendering `%v` gives an operand. -/
def FmtArg.value : FmtArg → GoString
  | .str s => s
  | .int n => itoa n

/-- Go type name of an operand, as printed in `%!verb(type=value)`. -/
def FmtArg.typeName : FmtArg → GoString
  | .str _ => lit "string"
  | .int _ => lit "int"

/-- One directive `%verb` applied to one operand, for the verbs `s`, `d` and `v`.
A verb that does not fit the operand prints `%!verb(type=value)`. -/
def renderVerb (verb : Nat) (a : FmtArg) : GoString :=
  match a with
  | .str s =>
    if verb = 115 ∨ verb = 118 then s
    else lit "%!" ++ [verb] ++ lit "(" ++ a.typeName ++ lit "=" ++ a.value ++ lit ")"
  | .int n =>
    if verb = 100 ∨ verb = 118 then itoa n
    else lit "%!" ++ [verb] ++ lit "(" ++ a.typeName ++ lit "=" ++ a.value ++ lit ")"

/-- Operands left over when the format is exhausted: `type=value, type=value`. -/
def extraArgs : List FmtArg → GoString
  | [] => []
  | [a] => a.typeName ++ lit "=" ++ a.value
  | a :: b :: rest => a.typeName ++ lit "=" ++ a.value ++ lit ", " ++ extraArgs (b :: rest)

/-- What `Sprintf` appends for operands no directive has used. -/
def extraTail : List FmtArg → GoString
  | [] => []
  | a :: as => lit "%!(EXTRA " ++ extraArgs (a :: as) ++ lit ")"

/-- Go `fmt.Sprintf(format, args...)` for formats without flags, width or precision and
with the verbs `%s`, `%d`, `%v` and `%%`, on string and int operands. -/
def sprintf : GoString → List FmtArg → GoString
  | [], args => extraTail args
  | [37], args => lit "%!(NOVERB)" ++ extraTail args
  | 37 :: verb :: rest, args =>
    if verb = 37 then 37 :: sprintf rest args
    else
      match args with
      | [] => lit "%!" ++ [verb] ++ lit "(MISSING)" ++ sprintf rest []
      | a :: as => renderVerb verb a ++ sprintf rest as
  | c :: rest, args => c :: sprintf rest args

/-- Go `logrus.Level`, a `uint32`. -/
abbrev Level := Nat

def PanicLevel : Level := 0
def FatalLevel : Level := 1
def ErrorLevel : Level := 2
def WarnLevel : Level := 3
def InfoLevel : Level := 4
def DebugLevel : Level := 5
def TraceLevel : Level := 6

/-- Go `logrus.Level.String`, used when a level is printed with `%v`. -/
def levelString (level : Level) : GoString :=
  if level = TraceLevel then lit "trace"
  else if level = DebugLevel then lit "debug"
  else if level = InfoLevel then lit "info"
  else if level = WarnLevel then lit "warning"
  else if level = ErrorLevel then lit "error"
  else if level = FatalLevel then lit "fatal"
  else if level = PanicLevel then lit "panic"
  else lit "unknown"

/-- A Go `time.Time`: an instant, in nanoseconds since the epoch. Its rendering
`t.Format(layout)` is the library function `timeFormat` passed to the functions below. -/
abbrev Time := Int

/-- An error made outside the package (package `os`, a stream, a formatter): its text,
and what `os.IsNotExist` says about it. -/
structure ExtError where
  text : GoString
  notExist : Bool
  deriving DecidableEq, Repr

/-- A Go `error` value, by the concrete type behind the interface. -/
inductive GoError
  /-- A `*strconv.NumError`. -/
  | numError (e : NumError)
  /-- An error built by `fmt.Errorf`, with its text. -/
  | errorString (text : GoString)
  /-- An error that comes from outside the package. -/
  | external (e : ExtError)
  deriving DecidableEq, Repr

/-- The fields of `logrus.Entry` the package reads. `Buffer` holds the unread bytes of
`entry.Buffer`, `none` when the pointer is nil. -/
structure Entry where
  Time : Time
  Level : Level
  Message : GoString
  Buffer : Option GoString

/-- Go interface `logrus.Formatter`: the method `Format(entry) ([]byte, error)`. -/
abbrev Formatter := Entry → GoString × Option GoError

/-! ## `log.go`: the plain-text formatter -/

/-- The struct `PlainTextFormatter` of `log.go`. -/
structure PlainTextFormatter where
  TimestampFormat : GoString
  pid : Int

/-- The function `getLogLevel` of `log.go`. -/
def getLogLevel (level : Level) : GoString :=
  if level = DebugLevel then lit "[DEBUG]: "
  else if level = InfoLevel then lit "[INFO]: "
  else if level = WarnLevel then lit "[WARNING]: "
  else if level = ErrorLevel then lit "[ERROR]: "
  else if level = FatalLevel then lit "[FATAL]: "
  else lit "[UNKNOWN]: "

/-- The method `PlainTextFormatter.Format` of `log.go`. The bytes returned are those of the
buffer after the `Fprintf`: the previous unread bytes of `entry.Buffer`, then the line. -/
def PlainTextFormatter.Format (timeFormat : Time → GoString → GoString)
    (f : PlainTextFormatter) (entry : Entry) : GoString × Option GoError :=
  let b : GoString :=
    match entry.Buffer with
    | some buf => buf
    | none => []
  let b := b ++ sprintf (lit "%s %d %s%s\n")
    [.str (timeFormat entry.Time f.TimestampFormat), .int f.pid,
     .str (getLogLevel entry.Level), .str entry.Message]
  (b, none)

/-! ## The process environment -/

/-- An operand of a diagnostic message. -/
inductive Operand
  | str (s : GoString)
  | err (e : GoError)
  deriving DecidableEq, Repr

/-- One call that delivers bytes to a stream. -/
inductive WriteCall
  /-- The call `w.Write(p)`. -/
  | write (p : GoString)
  /-- The call `fmt.Fprintf(w, format, args...)`. -/
  | fprintf (format : GoString) (args : List Operand)
  deriving DecidableEq, Repr

/-- An output stream (`os.Stdout`, `os.Stderr`): the calls it has accepted so far, and
whether it has stopped accepting writes (closed descriptor, broken pipe). -/
structure Stream where
  accepted : List WriteCall
  broken : Bool
  deriving DecidableEq, Repr

/-- Deliver one call to a stream: the stream afterwards and the error of the call. -/
def Stream.deliver (s : Stream) (c : WriteCall) : Stream × Option GoError :=
  if s.broken then (s, some (.external ⟨lit "write: file already closed", false⟩))
  else ({ s with accepted := s.accepted ++ [c] }, none)

/-- One call of `os.Rename(oldpath, newpath)` and whether it succeeded. -/
structure RenameCall where
  oldpath : GoString
  newpath : GoString
  ok : Bool
  deriving DecidableEq, Repr

/-- The files: directory entries (`links`: path to inode) and the contents of the inodes
(`files`; `none` for a number that is not an open file). An `*os.File` is the number of
the inode it was opened on. -/
structure FileSys where
  links : GoString → Option Nat
  files : Nat → Option GoString

/-- The environment of the process. `stdlog` lists the calls `logrus.Errorf(format, args...)`
made on the standard logrus logger; `renames` lists the calls of `os.Rename`, oldest first. -/
structure World where
  fs : FileSys
  stdout : Stream
  stderr : Stream
  stdlog : List (GoString × List Operand)
  renames : List RenameCall

/-- Go `f.WriteString(s)` on a file opened with `O_APPEND`: the operating system accepts
`accept` bytes of `s`; the call fails when the handle is invalid or fewer bytes than
`len(s)` were accepted. -/
def FileSys.writeString (fs : FileSys) (h : Nat) (s : GoString) (accept : Nat) :
    FileSys × Option GoError :=
  match fs.files h with
  | none => (fs, some (.external ⟨lit "write: bad file descriptor", false⟩))
  | some content =>
    let n := min accept s.length
    let fs1 : FileSys :=
      { fs with files := fun i => if i = h then some (content ++ s.take n) else fs.files i }
    if n < s.length then (fs1, some (.external ⟨lit "short write", false⟩)) else (fs1, none)

/-- Go `f.Stat()` followed by `fileInfo.Size()`. -/
def FileSys.statSize (fs : FileSys) (h : Nat) : Except GoError Int :=
  match fs.files h with
  | none => .error (.external ⟨lit "stat: bad file descriptor", false⟩)
  | some content => .ok (len content)

/-- Go `os.Rename(oldpath, newpath)`: fails when `oldpath` does not exist, otherwise the
entry moves to `newpath` (replacing what was there). -/
def FileSys.rename (fs : FileSys) (oldpath newpath : GoString) : FileSys × Option GoError :=
  match fs.links oldpath with
  | none => (fs, some (.external ⟨lit "rename: no such file or directory", true⟩))
  | some ino =>
    if oldpath = newpath then (fs, none)
    else
      ({ fs with links := fun p => if p = newpath then some ino
                                   else if p = oldpath then none else fs.links p }, none)

/-- The call `os.Rename` in a world: performs it and records it. -/
def World.rename (w : World) (oldpath newpath : GoString) : World × Option GoError :=
  match w.fs.rename oldpath newpath with
  | (fs1, some err) =>
    ({ w with fs := fs1, renames := w.renames ++ [⟨oldpath, newpath, false⟩] }, some err)
  | (fs1, none) =>
    ({ w with fs := fs1, renames := w.renames ++ [⟨oldpath, newpath, true⟩] }, none)

/-! ## `console.go` -/

/-- The struct `ConsoleHook` of `console.go`. -/
structure ConsoleHook where
  formatter : Formatter

/-- The two streams a console hook can pick. -/
inductive LogWriter
  | Stdout
  | Stderr
  deriving DecidableEq, Repr

/-- The call `logWriter.Write(p)` in a world. -/
def World.write (w : World) (logWriter : LogWriter) (p : GoString) : World × Option GoError :=
  match logWriter with
  | .Stdout => let r := w.stdout.deliver (.write p); ({ w with stdout := r.1 }, r.2)
  | .Stderr => let r := w.stderr.deliver (.write p); ({ w with stderr := r.1 }, r.2)

/-- The call `fmt.Fprintf(os.Stderr, format, args...)`, result ignored. -/
def World.fprintfStderr (w : World) (format : GoString) (args : List Operand) : World :=
  { w with stderr := (w.stderr.deliver (.fprintf format args)).1 }

/-- The method `ConsoleHook.Fire` of `console.go`. -/
def ConsoleHook.Fire (hook : ConsoleHook) (entry : Entry) (w : World) : World × Option GoError :=
  -- Determine output stream
  let logWriter : Option LogWriter :=
    if entry.Level = DebugLevel ∨ entry.Level = InfoLevel ∨ entry.Level = WarnLevel then
      some .Stdout
    else if entry.Level = ErrorLevel ∨ entry.Level = FatalLevel ∨ entry.Level = PanicLevel then
      some .Stderr
    else none
  match logWriter with
  | none =>
    (w, some (.errorString (sprintf (lit "unknown log level: %v") [.str (levelString entry.Level)])))
  | some logWriter =>
    match hook.formatter entry with
    | (_, some err) => (w.fprintfStderr (lit "Unable to read entry, %v") [.err err], some err)
    | (lineBytes, none) =>
      match w.write logWriter lineBytes with
      | (w1, some err) => (w1, some err)
      | (w1, none) => (w1, none)

/-! ## `file.go`: the file hook -/

/-- The struct `FileHook` of `file.go`. The mutex is not a field of the model: runs are
sequential, so it is free whenever `maybeDoLogfileRotation` is entered, and the section
it guards is the function `rotateLocked`. -/
structure FileHook where
  logFilePath : GoString
  logFileHandle : Nat
  logRotationThreshold : Int
  formatter : Formatter

/-- Go `os.FileInfo`, as far as `NewFileHook` looks at it. -/
structure FileInfo where
  isDir : Bool

/-- What the operating system answers to the calls of `NewFileHook`. -/
structure HookEnv where
  /-- Go `filepath.Dir`. -/
  dir : GoString → GoString
  /-- Go `os.Lstat(path)`. -/
  lstat : GoString → Except ExtError FileInfo
  /-- Go `os.MkdirAll(path, 0755)`. -/
  mkdirAll : GoString → Option ExtError
  /-- Go `os.OpenFile(path, os.O_CREATE|os.O_APPEND|os.O_RDWR, 0644)`. -/
  openFile : GoString → Except ExtError Nat

/-- A run of a function that returns `α` or panics. -/
inductive Run (α : Type)
  | done (v : α)
  | panic

/-- What `NewFileHook` returns: the pair `(*FileHook, error)`, and the calls
`logrus.Errorf(format, args...)` it made on the standard logger. -/
structure NewFileHookResult where
  hook : Option FileHook
  err : Option GoError
  stdlog : List (GoString × List Operand)

/-- The function `NewFileHook` of `file.go`. `flagValue` is the value of `-logFileSize`. -/
def NewFileHook (env : HookEnv) (toUpper : GoString → GoString) (flagValue : GoString)
    (logFilePath : GoString) (logFormat : Formatter) : Run NewFileHookResult :=
  let logRoot := env.dir logFilePath
  let (dir, err) : Option FileInfo × Option ExtError :=
    match env.lstat logRoot with
    | .ok info => (some info, none)
    | .error e => (none, some e)
  let mkdirErr : Option ExtError :=
    match err with
    | some e => if e.notExist then env.mkdirAll logRoot else none
    | none => none
  match mkdirErr with
  | some e =>
    .done ⟨none, some (.errorString (sprintf (lit "could not create log directory %v. %v")
      [.str logRoot, .str e.text])), []⟩
  | none =>
    let notDir : Bool :=
      match dir with
      | some d => !d.isDir
      | none => false
    if notDir then
      .done ⟨none, some (.errorString (sprintf
        (lit "log path %v exists and is not a directory, please remove it") [.str logRoot])), []⟩
    else
      match getNumInByte toUpper flagValue with
      | .panic => .panic
      | .ret _ (some err) =>
        .done ⟨none, some (.numError err),
          [(lit "Calc max log file size error: %v.", [.err (.numError err)])]⟩
      | .ret filesizeThreshold none =>
        match env.openFile logFilePath with
        | .error e => .done ⟨none, some (.external e), []⟩
        | .ok fileHandle =>
          .done ⟨some { logFilePath := logFilePath
                        logRotationThreshold := filesizeThreshold
                        formatter := logFormat
                        logFileHandle := fileHandle }, none, []⟩

/-- The method `FileHook.logfileNeedsRotation` of `file.go`. -/
def FileHook.logfileNeedsRotation (hook : FileHook) (w : World) : Bool :=
  match w.fs.statSize hook.logFileHandle with
  | .error _ => false
  | .ok size => decide (size ≥ hook.logRotationThreshold)

/-- The section of `maybeDoLogfileRotation` that runs with the mutex held: the second
check and the rename. `now` is `time.Now()`. -/
def FileHook.rotateLocked (timeFormat : Time → GoString → GoString) (hook : FileHook)
    (now : Time) (w : World) : World × Option GoError :=
  if hook.logfileNeedsRotation w then
    -- Do the rotation.
    let rotatedLogFileLocation := hook.logFilePath ++ timeFormat now (lit "20060102-150405")
    match w.rename hook.logFilePath rotatedLogFileLocation with
    | (w1, some err) => (w1, some err)
    | (w1, none) => (w1, none)
  else (w, none)

/-- The method `FileHook.maybeDoLogfileRotation` of `file.go`. -/
def FileHook.maybeDoLogfileRotation (timeFormat : Time → GoString → GoString) (hook : FileHook)
    (now : Time) (w : World) : World × Option GoError :=
  if hook.logfileNeedsRotation w then
    hook.rotateLocked timeFormat now w
  else (w, none)

/-- What one call of `Fire` on a file hook gets from outside: the entry, the clock, and
how many bytes the operating system accepts from the write. -/
structure FireInput where
  entry : Entry
  now : Time
  accept : Nat

/-- The method `FileHook.Fire` of `file.go`: the hook, the world and the error afterwards. -/
def FileHook.Fire (timeFormat : Time → GoString → GoString) (hook : FileHook)
    (i : FireInput) (w : World) : FileHook × World × Option GoError :=
  -- Get formatted entry
  match hook.formatter i.entry with
  | (_, some err) =>
    (hook, w.fprintfStderr (lit "Could not read log entry. %v") [.err err], some err)
  | (lineBytes, none) =>
    -- Write log entry to file
    let (fs1, err) := w.fs.writeString hook.logFileHandle lineBytes i.accept
    let w1 : World := { w with fs := fs1 }
    let w2 : World :=
      match err with
      | some _ =>
        { w1 with stdlog := w1.stdlog ++
            [(lit "Write log message %s to %s error.", [.str lineBytes, .str hook.logFilePath])] }
      | none => w1
    -- Rotate the file as needed
    match hook.maybeDoLogfileRotation timeFormat i.now w2 with
    | (w3, some err) => (hook, w3, some err)
    | (w3, none) => (hook, w3, none)

/-- A sequence of `Fire` calls on one hook, one after the other: the hook and the world at
the end, and the error of each call. -/
def fireAll (timeFormat : Time → GoString → GoString) :
    FileHook → List FireInput → World → FileHook × World × List (Option GoError)
  | hook, [], w => (hook, w, [])
  | hook, i :: rest, w =>
    let (hook1, w1, err) := hook.Fire timeFormat i w
    let (hook2, w2, errs) := fireAll timeFormat hook1 rest w1
    (hook2, w2, err :: errs)

/-! ## Notions used to state the properties -/

/-- Value of a digit string, most significant digit first. -/
def digitsValue (ds : GoString) : Nat := ds.foldl (fun a d => a * 10 + (d - 48)) 0

/-- Every byte is an ASCII digit. -/
def AllDigits (ds : GoString) : Prop := ∀ d ∈ ds, 48 ≤ d ∧ d ≤ 57

/-- The text `t` is a decimal integer denoting `n`: an optional sign, then one or more
ASCII digits. -/
def IsDecimal (t : GoString) (n : Int) : Prop :=
  ∃ ds : GoString, ds ≠ [] ∧ AllDigits ds ∧
    ((t = ds ∧ n = (digitsValue ds : Int)) ∨ (t = 43 :: ds ∧ n = (digitsValue ds : Int)) ∨
      (t = 45 :: ds ∧ n = -(digitsValue ds : Int)))

/-- The three forms of a size threshold the configuration documents: `<integer>`,
`<integer>K` and `<integer>M`. -/
def IsSizeForm (s : GoString) : Prop :=
  ∃ (t : GoString) (n : Int), IsDecimal t n ∧ (s = t ∨ s = t ++ lit "K" ∨ s = t ++ lit "M")

/-- An environment in which the log directory exists and the log file opens as file 3. -/
def plainEnv : HookEnv where
  dir := fun _ => lit "/var/log/huawei"
  lstat := fun _ => .ok ⟨true⟩
  mkdirAll := fun _ => none
  openFile := fun _ => .ok 3

/-- A formatter that returns the message of the entry as the line. -/
def messageFormatter : Formatter := fun e => (e.Message, none)

/-- The severity tag the formatter documents for a level. -/
def severityTag (level : Level) : GoString :=
  if level = DebugLevel then lit "DEBUG"
  else if level = InfoLevel then lit "INFO"
  else if level = WarnLevel then lit "WARNING"
  else if level = ErrorLevel then lit "ERROR"
  else if level = FatalLevel then lit "FATAL"
  else lit "UNKNOWN"

/-- The bytes of `out` in front of its first line terminator; `none` when there is none. -/
def takeLine : GoString → Option GoString
  | [] => none
  | c :: rest =>
    if c = 10 then some []
    else
      match takeLine rest with
      | some line => some (c :: line)
      | none => none

/-- Split a line at the bracketed tag and the `": "` that follows it: the tag is what
stands between the first `[` and the next `]`, the message is what follows `"]: "`. -/
def splitLine (line : GoString) : Option (GoString × GoString) :=
  let afterOpen := (line.dropWhile (fun c => c != 91)).drop 1
  match afterOpen.dropWhile (fun c => c != 93) with
  | 93 :: 58 :: 32 :: message => some (afterOpen.takeWhile (fun c => c != 93), message)
  | _ => none

/-- Parse a formatted record read as a line: the output up to its line terminator, split
at the bracketed tag. The result is the severity tag and the message text. -/
def parseLine (out : GoString) : Option (GoString × GoString) :=
  match takeLine out with
  | some line => splitLine line
  | none => none

/-- Parse a formatted record handed over whole: the final line terminator is removed and
the rest is split at the bracketed tag. -/
def parseRecord (out : GoString) : Option (GoString × GoString) :=
  if out.getLast? = some 10 then splitLine out.dropLast else none

/-- A clock rendering for examples: every instant prints as the same timestamp. -/
def fixedClock : Time → GoString → GoString := fun _ _ => lit "2021-03-04 05:06:07.000008"

/-- The formatter `InitLogging` builds, for process 4242. -/
def plainFormatter : PlainTextFormatter := ⟨lit "2006-01-02 15:04:05.000000", 4242⟩

/-- A world with no files and two empty, working console streams. -/
def emptyWorld : World where
  fs := ⟨fun _ => none, fun _ => none⟩
  stdout := ⟨[], false⟩
  stderr := ⟨[], false⟩
  stdlog := []
  renames := []

/-- The size `Stat` reports for the file of a hook, 0 when the handle is invalid. -/
def fileSize (hook : FileHook) (w : World) : Int :=
  match w.fs.files hook.logFileHandle with
  | some content => len content
  | none => 0

/-- The world after the write step of `Fire`: the bytes the file took are appended, and a
failed write leaves one message on the standard logger. -/
def afterWrite (hook : FileHook) (lineBytes : GoString) (accept : Nat) (w : World) : World :=
  match (w.fs.writeString hook.logFileHandle lineBytes accept).2 with
  | some _ =>
    { w with fs := (w.fs.writeString hook.logFileHandle lineBytes accept).1
             stdlog := w.stdlog ++
               [(lit "Write log message %s to %s error.",
                 [.str lineBytes, .str hook.logFilePath])] }
  | none => { w with fs := (w.fs.writeString hook.logFileHandle lineBytes accept).1 }

/-- The name a rotation at time `now` gives the log file. -/
def rotatedName (timeFormat : Time → GoString → GoString) (hook : FileHook) (now : Time) :
    GoString :=
  hook.logFilePath ++ timeFormat now (lit "20060102-150405")

/-- The hook's handle is open on the file linked at the hook's path, as `NewFileHook`
leaves it. -/
def Attached (hook : FileHook) (w : World) : Prop :=
  w.fs.links hook.logFilePath = some hook.logFileHandle ∧
    ∃ content, w.fs.files hook.logFileHandle = some content

/-- A hook on `/var/log/huawei/csi.log`, open as file 3, rotating at 10 bytes. -/
def sampleHook : FileHook where
  logFilePath := lit "/var/log/huawei/csi.log"
  logFileHandle := 3
  logRotationThreshold := 10
  formatter := messageFormatter

/-- A world in which the log file of `sampleHook` exists and is empty. -/
def sampleWorld : World where
  fs := ⟨fun p => if p = lit "/var/log/huawei/csi.log" then some 3 else none,
         fun i => if i = 3 then some [] else none⟩
  stdout := ⟨[], false⟩
  stderr := ⟨[], false⟩
  stdlog := []
  renames := []

/-- A clock rendering for the rotation examples: the instant `t` prints as the second
`t mod 60` of one fixed minute. -/
def secondsClock : Time → GoString → GoString :=
  fun t _ => lit "20210304-0506" ++ [48 + (t.toNat % 60) / 10, 48 + (t.toNat % 60) % 10]

/-- The world after `sampleHook` has logged a twelve-byte line at second 7: the file has
reached the threshold and has been rotated. -/
def rotatedWorld : World :=
  (sampleHook.Fire secondsClock ⟨⟨0, InfoLevel, lit "twelve bytes", none⟩, 7, 100⟩
    sampleWorld).2.1

/-- The successful calls of `os.Rename` made so far. -/
def rotations (w : World) : List RenameCall := w.renames.filter (fun r => r.ok)

/-- The world after a sequence of `Fire` calls. -/
def worldAfter (timeFormat : Time → GoString → GoString) (hook : FileHook)
    (ins : List FireInput) (w : World) : World :=
  (fireAll timeFormat hook ins w).2.1

/-! ## Facts about `strconv` -/

theorem foldl_digit_ge (ds : GoString) (a : Nat) :
    a ≤ ds.foldl (fun a d => a * 10 + (d - 48)) a := by
  induction ds generalizing a with
  | nil => simp
  | cons d ds ih =>
    simp only [List.foldl_cons]
    exact le_trans (by omega) (ih (a * 10 + (d - 48)))

theorem parseUintLoop_ok_of_digits (s0 ds : GoString) (a : Nat) (hd : AllDigits ds)
    (hv : ds.foldl (fun a d => a * 10 + (d - 48)) a < 2 ^ 64) :
    parseUintLoop s0 ds a = .ok (ds.foldl (fun a d => a * 10 + (d - 48)) a) := by
  induction ds generalizing a with
  | nil => simp [parseUintLoop]
  | cons d ds ih =>
    have hdig : 48 ≤ d ∧ d ≤ 57 := hd d (List.mem_cons_self _ _)
    have hrest : AllDigits ds := fun x hx => hd x (List.mem_cons_of_mem _ hx)
    simp only [List.foldl_cons] at hv ⊢
    have hge := foldl_digit_ge ds (a * 10 + (d - 48))
    have hlt : a * 10 + (d - 48) < 2 ^ 64 := lt_of_le_of_lt hge hv
    have h1 : wrapU64 (a * 10) = a * 10 := by
      unfold wrapU64; exact Nat.mod_eq_of_lt (by omega)
    have h2 : wrapU64 (a * 10 + (d - 48)) = a * 10 + (d - 48) := by
      unfold wrapU64; exact Nat.mod_eq_of_lt hlt
    have hcut : ¬ a ≥ (2 ^ 64 - 1) / 10 + 1 := by
      norm_num at hlt ⊢; omega
    have hov : ¬ (a * 10 + (d - 48) < a * 10 ∨ a * 10 + (d - 48) > 2 ^ 64 - 1) := by
      norm_num at hlt ⊢; omega
    rw [parseUintLoop]
    simp only [hdig, and_self, if_true, hcut, if_false, h1, h2, hov]
    exact ih _ hrest hv

theorem parseUintLoop_ok_inv (s0 ds : GoString) (a v : Nat) (ha : a < 2 ^ 64)
    (h : parseUintLoop s0 ds a = .ok v) :
    AllDigits ds ∧ v = ds.foldl (fun a d => a * 10 + (d - 48)) a ∧ v < 2 ^ 64 := by
  induction ds generalizing a with
  | nil =>
    simp only [parseUintLoop, Except.ok.injEq] at h
    subst h
    exact ⟨fun d hd => by simp at hd, rfl, ha⟩
  | cons d ds ih =>
    rw [parseUintLoop] at h
    dsimp only at h
    by_cases hdig : 48 ≤ d ∧ d ≤ 57
    · rw [if_pos hdig] at h
      by_cases hcut : a ≥ (2 ^ 64 - 1) / 10 + 1
      · rw [if_pos hcut] at h; cases h
      · rw [if_neg hcut] at h
        have h1 : wrapU64 (a * 10) = a * 10 := by
          unfold wrapU64; apply Nat.mod_eq_of_lt; norm_num at hcut ⊢; omega
        rw [h1] at h
        by_cases hov : wrapU64 (a * 10 + (d - 48)) < a * 10 ∨ wrapU64 (a * 10 + (d - 48)) > 2 ^ 64 - 1
        · rw [if_pos hov] at h; cases h
        · rw [if_neg hov] at h
          have hlt : a * 10 + (d - 48) < 2 ^ 64 := by
            unfold wrapU64 at hov
            norm_num at hcut hov ⊢
            omega
          have h2 : wrapU64 (a * 10 + (d - 48)) = a * 10 + (d - 48) := by
            unfold wrapU64; exact Nat.mod_eq_of_lt hlt
          rw [h2] at h
          obtain ⟨hall, hv, hvlt⟩ := ih _ hlt h
          refine ⟨?_, ?_, hvlt⟩
          · intro x hx
            rcases List.mem_cons.mp hx with rfl | hx
            · exact hdig
            · exact hall x hx
          · simpa only [List.foldl_cons] using hv
    · rw [if_neg hdig] at h; cases h

theorem parseUintLoop_error_kind (s0 ds : GoString) (a : Nat) (e : NumError)
    (h : parseUintLoop s0 ds a = .error e) : e.func = lit "ParseUint" ∧ e.num = s0 := by
  induction ds generalizing a with
  | nil => simp [parseUintLoop] at h
  | cons d ds ih =>
    rw [parseUintLoop] at h
    dsimp only at h
    by_cases hdig : 48 ≤ d ∧ d ≤ 57
    · rw [if_pos hdig] at h
      by_cases hcut : a ≥ (2 ^ 64 - 1) / 10 + 1
      · rw [if_pos hcut] at h
        simp only [Except.error.injEq] at h; subst h; exact ⟨rfl, rfl⟩
      · rw [if_neg hcut] at h
        split at h
        · simp only [Except.error.injEq] at h; subst h; exact ⟨rfl, rfl⟩
        · exact ih _ h
    · rw [if_neg hdig] at h
      simp only [Except.error.injEq] at h; subst h; exact ⟨rfl, rfl⟩

/-- The function `strconv.ParseUint` accepts exactly the non-empty digit strings below
`2^64`. -/
theorem ParseUint_ok_iff (s : GoString) (v : Nat) :
    ParseUint s = .ok v ↔ s ≠ [] ∧ AllDigits s ∧ digitsValue s = v ∧ v < 2 ^ 64 := by
  unfold ParseUint digitsValue
  constructor
  · intro h
    by_cases hs : s = []
    · simp [hs] at h
    · simp only [hs, if_false] at h
      obtain ⟨h1, h2, h3⟩ := parseUintLoop_ok_inv s s 0 v (by norm_num) h
      exact ⟨hs, h1, h2.symm, h3⟩
  · rintro ⟨hs, hd, hv, hlt⟩
    simp only [hs, if_false]
    rw [parseUintLoop_ok_of_digits s s 0 hd (by rw [hv]; exact hlt), hv]

theorem wrap64_of_fits (x : Int) (h : fitsInt64 x) : wrap64 x = x := by
  unfold fitsInt64 at h
  unfold wrap64
  norm_num at h ⊢
  omega

theorem wrap64_neg_nat (un : Nat) (h : un ≤ 2 ^ 63) :
    wrap64 (-(wrap64 (un : Int))) = -(un : Int) := by
  unfold wrap64
  norm_num at h ⊢
  omega

theorem ParseInt_ok_of_parse (c : Nat) (rest : GoString) (n : Int)
    (h : ParseInt (c :: rest) = (n, none)) :
    ∃ un : Nat, ParseUint (if c = 43 then rest else if c = 45 then rest else c :: rest) = .ok un ∧
      ((c ≠ 45 ∧ un < 2 ^ 63 ∧ n = (un : Int)) ∨ (c = 45 ∧ un ≤ 2 ^ 63 ∧ n = -(un : Int))) := by
  unfold ParseInt at h
  dsimp only at h
  cases hU : ParseUint (if c = 43 then rest else if c = 45 then rest else c :: rest) with
  | error e =>
    rw [hU] at h
    dsimp only at h
    by_cases hk : e.err ≠ .rangeErr
    · rw [if_pos hk] at h; cases h
    · rw [if_neg hk] at h
      by_cases hc : c = 45
      · simp [hc] at h
      · simp [hc] at h
  | ok un =>
    rw [hU] at h
    dsimp only at h
    refine ⟨un, rfl, ?_⟩
    by_cases hc : c = 45
    · right
      simp only [hc, decide_True, Bool.not_true, Bool.false_eq_true, false_and, if_false,
        true_and] at h
      split at h
      · cases h
      · rename_i hgt
        have hle : un ≤ 2 ^ 63 := by omega
        rw [wrap64_neg_nat un hle] at h
        simp only [Prod.mk.injEq, and_true] at h
        exact ⟨hc, hle, h.symm⟩
    · left
      simp only [hc, decide_False, Bool.not_false, true_and, Bool.false_eq_true,
        false_and, if_false] at h
      split at h
      · cases h
      · rename_i hge
        have hlt : un < 2 ^ 63 := by omega
        rw [wrap64_of_fits] at h
        · simp only [Prod.mk.injEq, and_true] at h
          exact ⟨hc, hlt, h.symm⟩
        · unfold fitsInt64; constructor <;> norm_num at hlt ⊢ <;> omega

theorem ParseInt_of_uint_ok (c : Nat) (rest : GoString) (un : Nat)
    (hU : ParseUint (if c = 43 then rest else if c = 45 then rest else c :: rest) = .ok un) :
    (c ≠ 45 → un < 2 ^ 63 → ParseInt (c :: rest) = ((un : Int), none)) ∧
      (c = 45 → un ≤ 2 ^ 63 → ParseInt (c :: rest) = (-(un : Int), none)) := by
  constructor
  · intro hc hlt
    unfold ParseInt
    dsimp only
    rw [hU]
    dsimp only
    have hge : ¬ un ≥ 2 ^ 63 := by omega
    simp only [hc, decide_False, Bool.not_false, true_and, Bool.false_eq_true, false_and,
      if_false, hge]
    rw [wrap64_of_fits]
    unfold fitsInt64; constructor <;> norm_num at hlt ⊢ <;> omega
  · intro hc hle
    unfold ParseInt
    dsimp only
    rw [hU]
    dsimp only
    have hgt : ¬ un > 2 ^ 63 := by omega
    simp only [hc, decide_True, Bool.not_true, Bool.false_eq_true, false_and, if_false,
      true_and, hgt, if_true]
    rw [wrap64_neg_nat un hle]

theorem digit_head_not_sign (ds : GoString) (c : Nat) (rest : GoString) (h : ds = c :: rest)
    (hd : AllDigits ds) : c ≠ 43 ∧ c ≠ 45 := by
  have := hd c (by rw [h]; exact List.mem_cons_self _ _)
  omega

/-- The call `strconv.ParseInt(t, 10, 64)` succeeds with `n` exactly when `t` is a decimal integer
(optional sign, one or more digits) denoting `n`, and `n` is an `int64`. -/
theorem ParseInt_ok_iff (t : GoString) (n : Int) :
    ParseInt t = (n, none) ↔ IsDecimal t n ∧ fitsInt64 n := by
  constructor
  · intro h
    cases t with
    | nil => simp [ParseInt] at h
    | cons c rest =>
      obtain ⟨un, hU, hcase⟩ := ParseInt_ok_of_parse c rest n h
      obtain ⟨hne, hall, hval, -⟩ := (ParseUint_ok_iff _ un).mp hU
      rcases hcase with ⟨hc, hlt, hn⟩ | ⟨hc, hle, hn⟩
      · constructor
        · by_cases h43 : c = 43
          · simp only [h43, if_true] at hne hall hval
            exact ⟨rest, hne, hall, Or.inr (Or.inl ⟨by rw [h43], by rw [hn, hval]⟩)⟩
          · simp only [h43, hc, if_false] at hne hall hval
            exact ⟨c :: rest, hne, hall, Or.inl ⟨rfl, by rw [hn, hval]⟩⟩
        · unfold fitsInt64; subst hn; constructor <;> norm_num at hlt ⊢ <;> omega
      · constructor
        · subst hc
          simp only [Nat.reduceEqDiff, if_false, if_true] at hne hall hval
          exact ⟨rest, hne, hall, Or.inr (Or.inr ⟨rfl, by rw [hn, hval]⟩)⟩
        · unfold fitsInt64; subst hn; constructor <;> norm_num at hle ⊢ <;> omega
  · rintro ⟨⟨ds, hne, hall, hcase⟩, hfit⟩
    unfold fitsInt64 at hfit
    rcases hcase with ⟨ht, hn⟩ | ⟨ht, hn⟩ | ⟨ht, hn⟩
    · subst ht
      cases t with
      | nil => exact absurd rfl hne
      | cons c rest =>
        obtain ⟨h43, h45⟩ := digit_head_not_sign (c :: rest) c rest rfl hall
        have hlt : digitsValue (c :: rest) < 2 ^ 63 := by
          have := hfit.2; rw [hn] at this; exact_mod_cast this
        have hU : ParseUint (if c = 43 then rest else if c = 45 then rest else c :: rest)
            = .ok (digitsValue (c :: rest)) := by
          simp only [h43, h45, if_false]
          exact (ParseUint_ok_iff _ _).mpr ⟨hne, hall, rfl, by norm_num at hlt ⊢; omega⟩
        rw [hn]
        exact (ParseInt_of_uint_ok c rest _ hU).1 h45 hlt
    · subst ht
      have hlt : digitsValue ds < 2 ^ 63 := by
        have := hfit.2; rw [hn] at this; exact_mod_cast this
      have hU : ParseUint (if (43 : Nat) = 43 then ds else if (43 : Nat) = 45 then ds else 43 :: ds)
          = .ok (digitsValue ds) := by
        simp only [if_true]
        exact (ParseUint_ok_iff _ _).mpr ⟨hne, hall, rfl, by norm_num at hlt ⊢; omega⟩
      rw [hn]
      exact (ParseInt_of_uint_ok 43 ds _ hU).1 (by decide) hlt
    · subst ht
      have hle : digitsValue ds ≤ 2 ^ 63 := by
        have := hfit.1; rw [hn] at this
        have h2 : ((digitsValue ds : Nat) : Int) ≤ 2 ^ 63 := by linarith
        exact_mod_cast h2
      have hU : ParseUint (if (45 : Nat) = 43 then ds else if (45 : Nat) = 45 then ds else 45 :: ds)
          = .ok (digitsValue ds) := by
        simp only [if_true, Nat.reduceEqDiff, if_false]
        exact (ParseUint_ok_iff _ _).mpr ⟨hne, hall, rfl, by norm_num at hle ⊢; omega⟩
      rw [hn]
      exact (ParseInt_of_uint_ok 45 ds _ hU).2 rfl hle

/-- Either a value without error, or an error: the two shapes of what `ParseInt` returns. -/
theorem ParseInt_cases (t : GoString) :
    (∃ n, ParseInt t = (n, none)) ∨ (∃ x e, ParseInt t = (x, some e)) := by
  rcases h : ParseInt t with ⟨x, _ | e⟩
  · exact Or.inl ⟨x, rfl⟩
  · exact Or.inr ⟨x, e, rfl⟩

/-- The function `ParseInt` reports an error on every text that is not a decimal `int64`. -/
theorem ParseInt_error_of_not_decimal (t : GoString)
    (h : ¬ ∃ n, IsDecimal t n ∧ fitsInt64 n) : ∃ x e, ParseInt t = (x, some e) := by
  rcases ParseInt_cases t with ⟨n, hn⟩ | herr
  · exact absurd ⟨n, (ParseInt_ok_iff t n).mp hn⟩ h
  · exact herr

/-! ## Facts about the decimal rendering -/

theorem digitsFuel_acc (fuel n : Nat) (acc : GoString) :
    digitsFuel fuel n acc = digitsFuel fuel n [] ++ acc := by
  induction fuel generalizing n acc with
  | zero => simp [digitsFuel]
  | succ f ih =>
    unfold digitsFuel
    by_cases h : n < 10
    · simp [h]
    · simp only [h, if_false]
      rw [ih (n / 10) ((48 + n % 10) :: acc), ih (n / 10) [48 + n % 10]]
      simp

theorem digitsValue_snoc (xs : GoString) (d : Nat) :
    digitsValue (xs ++ [d]) = digitsValue xs * 10 + (d - 48) := by
  simp [digitsValue, List.foldl_append]

theorem digitsFuel_spec (fuel n : Nat) (h : n < fuel) :
    AllDigits (digitsFuel fuel n []) ∧ digitsFuel fuel n [] ≠ [] ∧
      digitsValue (digitsFuel fuel n []) = n := by
  induction fuel generalizing n with
  | zero => omega
  | succ f ih =>
    unfold digitsFuel
    by_cases h10 : n < 10
    · simp only [h10, if_true]
      refine ⟨?_, by simp, ?_⟩
      · intro d hd
        simp only [List.mem_singleton] at hd
        omega
      · simp [digitsValue]
    · simp only [h10, if_false]
      rw [digitsFuel_acc]
      obtain ⟨h1, h2, h3⟩ := ih (n / 10) (by omega)
      refine ⟨?_, by simp, ?_⟩
      · intro d hd
        rcases List.mem_append.mp hd with hd | hd
        · exact h1 d hd
        · simp only [List.mem_singleton] at hd
          omega
      · rw [digitsValue_snoc, h3]
        omega

theorem formatUint_spec (n : Nat) :
    AllDigits (formatUint n) ∧ formatUint n ≠ [] ∧ digitsValue (formatUint n) = n :=
  digitsFuel_spec (n + 1) n (by omega)

/-- The decimal rendering of `n` is a decimal integer denoting `n`. -/
theorem itoa_isDecimal (n : Int) : IsDecimal (itoa n) n := by
  obtain ⟨h1, h2, h3⟩ := formatUint_spec n.natAbs
  unfold itoa
  by_cases hn : n < 0
  · simp only [hn, if_true]
    exact ⟨_, h2, h1, Or.inr (Or.inr ⟨rfl, by rw [h3]; omega⟩)⟩
  · simp only [hn, if_false]
    exact ⟨_, h2, h1, Or.inl ⟨rfl, by rw [h3]; omega⟩⟩

/-- Bytes of a decimal rendering: digits and the minus sign. -/
theorem itoa_bytes (n : Int) : ∀ b ∈ itoa n, (48 ≤ b ∧ b ≤ 57) ∨ b = 45 := by
  obtain ⟨h1, -, -⟩ := formatUint_spec n.natAbs
  unfold itoa
  intro b hb
  by_cases hn : n < 0
  · simp only [hn, if_true, List.mem_cons] at hb
    rcases hb with rfl | hb
    · exact Or.inr rfl
    · exact Or.inl (h1 b hb)
  · simp only [hn, if_false] at hb
    exact Or.inl (h1 b hb)

/-- A decimal rendering ends in a digit. -/
theorem itoa_snoc (n : Int) : ∃ init c, itoa n = init ++ [c] ∧ 48 ≤ c ∧ c ≤ 57 := by
  obtain ⟨h1, h2, -⟩ := formatUint_spec n.natAbs
  have hlast : formatUint n.natAbs = (formatUint n.natAbs).dropLast ++
      [(formatUint n.natAbs).getLast h2] := (List.dropLast_append_getLast h2).symm
  have hdig := h1 _ (List.getLast_mem h2)
  unfold itoa
  by_cases hn : n < 0
  · simp only [hn, if_true]
    exact ⟨45 :: (formatUint n.natAbs).dropLast, _, by rw [List.cons_append, ← hlast], hdig⟩
  · simp only [hn, if_false]
    exact ⟨_, _, hlast, hdig⟩

/-! ## Facts about `getNumInByte` -/

theorem sliceFrom_snoc (init : GoString) (c : Nat) :
    sliceFrom (init ++ [c]) (len (init ++ [c]) - 1) = some [c] := by
  unfold sliceFrom len
  have h : ((init ++ [c]).length : Int) - 1 = (init.length : Int) := by simp
  rw [h]
  simp

theorem sliceTo_snoc (init : GoString) (c : Nat) :
    sliceTo (init ++ [c]) (len (init ++ [c]) - 1) = some init := by
  unfold sliceTo len
  have h : ((init ++ [c]).length : Int) - 1 = (init.length : Int) := by simp
  rw [h]
  simp

theorem lastLetter_isDigit (c : Nat) :
    (strGE [c] (lit "0") && strLE [c] (lit "9")) = decide (48 ≤ c ∧ c ≤ 57) := by
  have h0 : lit "0" = [48] := by decide
  have h9 : lit "9" = [57] := by decide
  rw [h0, h9]
  unfold strGE
  simp only [strLE]
  by_cases h1 : 48 < c <;> by_cases h2 : c < 48 <;> by_cases h3 : c < 57 <;>
    by_cases h4 : 57 < c <;> simp [h1, h2, h3, h4] <;> omega

/-- What `getNumInByte` does on an input whose upper-cased form is `init` followed by the
byte `c`. -/
theorem getNumInByte_snoc (toUpper : GoString → GoString) (s init : GoString) (c : Nat)
    (hu : toUpper s = init ++ [c]) :
    getNumInByte toUpper s =
      if 48 ≤ c ∧ c ≤ 57 then
        (match ParseInt (init ++ [c]) with
          | (_, some err) => .ret 0 (some err)
          | (sum, none) => .ret sum none)
      else
        (match ParseInt init with
          | (_, some err) => .ret 0 (some err)
          | (sum, none) =>
            if c = 77 then .ret (wrap64 (sum * (1024 * 1024))) none
            else if c = 75 then .ret (wrap64 (sum * 1024)) none
            else .ret sum none) := by
  have hM : lit "M" = [77] := by decide
  have hK : lit "K" = [75] := by decide
  unfold getNumInByte
  simp only [hu, sliceFrom_snoc, sliceTo_snoc, lastLetter_isDigit, hM, hK]
  by_cases hd : 48 ≤ c ∧ c ≤ 57
  · simp [hd]
  · simp [hd]

theorem asciiToUpper_laws : ToUpperLaws asciiToUpper :=
  ⟨fun _ _ => rfl, fun s hs => by unfold asciiToUpper; simpa using hs⟩

/-- On ASCII input `getNumInByte` does not depend on which `strings.ToUpper` is supplied. -/
theorem getNumInByte_ascii (toUpper : GoString → GoString) (hU : ToUpperLaws toUpper)
    (s : GoString) (hs : ∀ b ∈ s, b < 128) :
    getNumInByte toUpper s = getNumInByte asciiToUpper s := by
  unfold getNumInByte
  rw [hU.ascii s hs]
  rfl

theorem map_upperByte_id (s : GoString) (hs : ∀ b ∈ s, b < 97) : s.map upperByte = s := by
  induction s with
  | nil => rfl
  | cons b t ih =>
    have hb := hs b (List.mem_cons_self _ _)
    have hup : upperByte b = b := by unfold upperByte; simp; omega
    rw [List.map_cons, hup, ih (fun x hx => hs x (List.mem_cons_of_mem _ hx))]

/-- Upper-casing leaves a decimal rendering followed by upper-case ASCII bytes unchanged. -/
theorem toUpper_itoa_append (toUpper : GoString → GoString) (hU : ToUpperLaws toUpper)
    (n : Int) (suffix : GoString) (hs : ∀ b ∈ suffix, b < 97) :
    toUpper (itoa n ++ suffix) = itoa n ++ suffix := by
  have hlow : ∀ b ∈ itoa n ++ suffix, b < 97 := by
    intro b hb
    rcases List.mem_append.mp hb with hb | hb
    · rcases itoa_bytes n b hb with h | h <;> omega
    · exact hs b hb
  rw [hU.ascii _ (fun b hb => by have := hlow b hb; omega)]
  exact map_upperByte_id _ hlow

/-- The size parser on `<n><suffix byte>` for a suffix byte that is an upper-case letter. -/
theorem getNumInByte_itoa_suffix (toUpper : GoString → GoString) (hU : ToUpperLaws toUpper)
    (n : Int) (hn : fitsInt64 n) (c : Nat) (hc : 57 < c ∧ c < 97) :
    getNumInByte toUpper (itoa n ++ [c]) =
      if c = 77 then .ret (wrap64 (n * (1024 * 1024))) none
      else if c = 75 then .ret (wrap64 (n * 1024)) none
      else .ret n none := by
  have hup := toUpper_itoa_append toUpper hU n [c]
    (fun b hb => by simp only [List.mem_singleton] at hb; omega)
  rw [getNumInByte_snoc toUpper _ (itoa n) c hup]
  have hnd : ¬ (48 ≤ c ∧ c ≤ 57) := by omega
  rw [if_neg hnd, (ParseInt_ok_iff (itoa n) n).mpr ⟨itoa_isDecimal n, hn⟩]

/-- The size parser on a bare decimal rendering. -/
theorem getNumInByte_itoa (toUpper : GoString → GoString) (hU : ToUpperLaws toUpper)
    (n : Int) (hn : fitsInt64 n) : getNumInByte toUpper (itoa n) = .ret n none := by
  have hup := toUpper_itoa_append toUpper hU n [] (fun b hb => by simp at hb)
  rw [List.append_nil] at hup
  obtain ⟨init, c, hsplit, hd⟩ := itoa_snoc n
  rw [hsplit] at hup
  rw [getNumInByte_snoc toUpper _ init c (by rw [← hsplit] at hup ⊢; exact hup)]
  rw [if_pos hd, ← hsplit, (ParseInt_ok_iff (itoa n) n).mpr ⟨itoa_isDecimal n, hn⟩]

/-- A decimal integer text starts with a digit or a sign. -/
theorem IsDecimal_head (t : GoString) (n : Int) (h : IsDecimal t n) :
    ∃ c rest, t = c :: rest ∧ ((48 ≤ c ∧ c ≤ 57) ∨ c = 43 ∨ c = 45) := by
  obtain ⟨ds, hne, hall, hcase⟩ := h
  rcases hcase with ⟨ht, -⟩ | ⟨ht, -⟩ | ⟨ht, -⟩
  · cases ds with
    | nil => exact absurd rfl hne
    | cons c rest => exact ⟨c, rest, ht, Or.inl (hall c (List.mem_cons_self _ _))⟩
  · exact ⟨43, ds, ht, Or.inr (Or.inl rfl)⟩
  · exact ⟨45, ds, ht, Or.inr (Or.inr rfl)⟩

/-- A decimal integer text ends with a digit. -/
theorem IsDecimal_last (t : GoString) (n : Int) (h : IsDecimal t n) :
    ∃ init c, t = init ++ [c] ∧ 48 ≤ c ∧ c ≤ 57 := by
  obtain ⟨ds, hne, hall, hcase⟩ := h
  have hlast : ds = ds.dropLast ++ [ds.getLast hne] := (List.dropLast_append_getLast hne).symm
  have hdig := hall _ (List.getLast_mem hne)
  rcases hcase with ⟨ht, -⟩ | ⟨ht, -⟩ | ⟨ht, -⟩
  · exact ⟨_, _, ht.trans hlast, hdig⟩
  · exact ⟨43 :: ds.dropLast, _, by rw [ht, List.cons_append, ← hlast], hdig⟩
  · exact ⟨45 :: ds.dropLast, _, by rw [ht, List.cons_append, ← hlast], hdig⟩

/-- The size parser reports an error whenever the magnitude is not a decimal `int64`. -/
theorem getNumInByte_error_of_bad_magnitude (toUpper : GoString → GoString)
    (s init : GoString) (c : Nat) (hs : toUpper s = init ++ [c])
    (hbad : ¬ ∃ n, IsDecimal (if 48 ≤ c ∧ c ≤ 57 then init ++ [c] else init) n ∧ fitsInt64 n) :
    ∃ e, getNumInByte toUpper s = .ret 0 (some e) := by
  rw [getNumInByte_snoc toUpper s init c hs]
  obtain ⟨x, e, he⟩ := ParseInt_error_of_not_decimal _ hbad
  by_cases hd : 48 ≤ c ∧ c ≤ 57
  · rw [if_pos hd] at he ⊢
    rw [he]
    exact ⟨e, rfl⟩
  · rw [if_neg hd] at he ⊢
    rw [he]
    exact ⟨e, rfl⟩

theorem upperByte_not_numeric (c : Nat) (hd : ¬ (48 ≤ c ∧ c ≤ 57)) (h43 : c ≠ 43)
    (h45 : c ≠ 45) :
    ¬ ((48 ≤ upperByte c ∧ upperByte c ≤ 57) ∨ upperByte c = 43 ∨ upperByte c = 45) := by
  unfold upperByte
  by_cases h : 97 ≤ c ∧ c ≤ 122
  · rw [if_pos h]; omega
  · rw [if_neg h]; omega

/-- The size parser reports an error on every ASCII string that starts with a byte that
is neither a digit nor a sign. -/
theorem getNumInByte_error_of_bad_head (toUpper : GoString → GoString)
    (hU : ToUpperLaws toUpper) (c : Nat) (rest : GoString) (hascii : ∀ b ∈ c :: rest, b < 128)
    (hd : ¬ (48 ≤ c ∧ c ≤ 57)) (h43 : c ≠ 43) (h45 : c ≠ 45) :
    ∃ e, getNumInByte toUpper (c :: rest) = .ret 0 (some e) := by
  have hup : toUpper (c :: rest) = upperByte c :: rest.map upperByte := by
    rw [hU.ascii _ hascii, List.map_cons]
  have hne : upperByte c :: rest.map upperByte ≠ [] := by simp
  have hsplit := (List.dropLast_append_getLast hne).symm
  have hhead := upperByte_not_numeric c hd h43 h45
  apply getNumInByte_error_of_bad_magnitude toUpper (c :: rest) _ _ (hup.trans hsplit)
  rintro ⟨n, hdec, -⟩
  obtain ⟨c1, r1, hm, hc1⟩ := IsDecimal_head _ n hdec
  have key : upperByte c = c1 := by
    split at hm
    · rw [← hsplit] at hm
      exact (List.cons.inj hm).1
    · rw [hm, List.cons_append] at hsplit
      exact (List.cons.inj hsplit).1
  rw [key] at hhead
  exact hhead hc1

/-! ## The size-threshold parser: claims -/

/-- C1: `getNumInByte` parses the size threshold as listed. For every integer `n`, the
decimal string of `n` yields `n` bytes when `n` fits in an `int64`, the string followed by
`K` yields `n * 1024` and followed by `M` yields `n * 1048576` when the scaled value fits;
`"100"`, `"10K"` and `"2M"` yield 100, 10240 and 2097152; `"XYZ"`, and every ASCII string
whose first byte is neither a digit nor a sign, yields an error. -/
theorem getNumInByte_parses_sizes (toUpper : GoString → GoString) (hU : ToUpperLaws toUpper)
    (n : Int) :
    (fitsInt64 n → getNumInByte toUpper (itoa n) = .ret n none) ∧
    (fitsInt64 (n * 1024) → getNumInByte toUpper (itoa n ++ lit "K") = .ret (n * 1024) none) ∧
    (fitsInt64 (n * 1048576) →
      getNumInByte toUpper (itoa n ++ lit "M") = .ret (n * 1048576) none) ∧
    getNumInByte toUpper (lit "100") = .ret 100 none ∧
    getNumInByte toUpper (lit "10K") = .ret 10240 none ∧
    getNumInByte toUpper (lit "2M") = .ret 2097152 none ∧
    (∃ e, getNumInByte toUpper (lit "XYZ") = .ret 0 (some e)) ∧
    (∀ (c : Nat) (rest : GoString), (∀ b ∈ c :: rest, b < 128) → ¬ (48 ≤ c ∧ c ≤ 57) →
      c ≠ 43 → c ≠ 45 → ∃ e, getNumInByte toUpper (c :: rest) = .ret 0 (some e)) := by
  have hK : lit "K" = [75] := by decide
  have hM : lit "M" = [77] := by decide
  refine ⟨getNumInByte_itoa toUpper hU n, ?_, ?_, ?_, ?_, ?_, ?_, ?_⟩
  · intro hfit
    have hn : fitsInt64 n := by unfold fitsInt64 at hfit ⊢; omega
    rw [hK, getNumInByte_itoa_suffix toUpper hU n hn 75 (by omega)]
    simp only [Nat.reduceEqDiff, if_false, if_true]
    rw [wrap64_of_fits _ hfit]
  · intro hfit
    have hn : fitsInt64 n := by unfold fitsInt64 at hfit ⊢; omega
    rw [hM, getNumInByte_itoa_suffix toUpper hU n hn 77 (by omega)]
    simp only [if_true]
    have h2 : n * (1024 * 1024) = n * 1048576 := by norm_num
    rw [h2, wrap64_of_fits _ hfit]
  · rw [getNumInByte_ascii toUpper hU _ (by decide)]; decide
  · rw [getNumInByte_ascii toUpper hU _ (by decide)]; decide
  · rw [getNumInByte_ascii toUpper hU _ (by decide)]; decide
  · rw [getNumInByte_ascii toUpper hU _ (by decide)]
    exact ⟨⟨lit "ParseInt", lit "XY", .syntaxErr⟩, by decide⟩
  · intro c rest hascii hd h43 h45
    exact getNumInByte_error_of_bad_head toUpper hU c rest hascii hd h43 h45

/-- C1 at the inputs `20`, `20K`, `-3M` and `size`. -/
theorem getNumInByte_parses_sizes_witness :
    getNumInByte asciiToUpper (itoa 20) = .ret 20 none ∧
    getNumInByte asciiToUpper (itoa 20 ++ lit "K") = .ret 20480 none ∧
    getNumInByte asciiToUpper (itoa (-3) ++ lit "M") = .ret (-3145728) none ∧
    (∃ e, getNumInByte asciiToUpper (lit "size") = .ret 0 (some e)) :=
  ⟨(getNumInByte_parses_sizes asciiToUpper asciiToUpper_laws 20).1 (by decide),
   (getNumInByte_parses_sizes asciiToUpper asciiToUpper_laws 20).2.1 (by decide),
   (getNumInByte_parses_sizes asciiToUpper asciiToUpper_laws (-3)).2.2.1 (by decide),
   (getNumInByte_parses_sizes asciiToUpper asciiToUpper_laws 0).2.2.2.2.2.2.2 115 (lit "ize")
      (by decide) (by decide) (by decide) (by decide)⟩

/-- C10: the slice expressions of `getNumInByte` are in range exactly for non-empty
input. On every non-empty string both slices are in range and the function returns a byte
count without error or an error with count 0; it panics exactly on the empty string,
where the slice that takes the last character is out of range. -/
theorem getNumInByte_panics_only_on_empty (toUpper : GoString → GoString)
    (hU : ToUpperLaws toUpper) (s : GoString) :
    (s ≠ [] →
      (sliceFrom (toUpper s) (len (toUpper s) - 1)).isSome ∧
      (sliceTo (toUpper s) (len (toUpper s) - 1)).isSome ∧
      ((∃ sum, getNumInByte toUpper s = .ret sum none) ∨
        (∃ e, getNumInByte toUpper s = .ret 0 (some e)))) ∧
    (s = [] → sliceFrom (toUpper s) (len (toUpper s) - 1) = none) ∧
    (getNumInByte toUpper s = .panic ↔ s = []) := by
  have hempty : toUpper [] = [] := by rw [hU.ascii [] (fun b hb => by simp at hb)]; rfl
  have hnonempty : s ≠ [] →
      (sliceFrom (toUpper s) (len (toUpper s) - 1)).isSome ∧
      (sliceTo (toUpper s) (len (toUpper s) - 1)).isSome ∧
      ((∃ sum, getNumInByte toUpper s = .ret sum none) ∨
        (∃ e, getNumInByte toUpper s = .ret 0 (some e))) := by
    intro hs
    have hne := hU.nonempty s hs
    have hsplit := (List.dropLast_append_getLast hne).symm
    refine ⟨?_, ?_, ?_⟩
    · rw [hsplit, sliceFrom_snoc]; rfl
    · rw [hsplit, sliceTo_snoc]; rfl
    · rw [getNumInByte_snoc toUpper s _ _ hsplit]
      split
      · rcases ParseInt_cases ((toUpper s).dropLast ++ [(toUpper s).getLast hne]) with
          ⟨n, hn⟩ | ⟨x, e, he⟩
        · rw [hn]; exact Or.inl ⟨n, rfl⟩
        · rw [he]; exact Or.inr ⟨e, rfl⟩
      · rcases ParseInt_cases (toUpper s).dropLast with ⟨n, hn⟩ | ⟨x, e, he⟩
        · rw [hn]
          dsimp only
          split
          · exact Or.inl ⟨_, rfl⟩
          · split
            · exact Or.inl ⟨_, rfl⟩
            · exact Or.inl ⟨_, rfl⟩
        · rw [he]; exact Or.inr ⟨e, rfl⟩
  refine ⟨hnonempty, ?_, ?_⟩
  · intro hs
    rw [hs, hempty]
    decide
  · constructor
    · intro hp
      by_contra hs
      rcases (hnonempty hs).2.2 with ⟨sum, h⟩ | ⟨e, h⟩ <;> rw [h] at hp <;> cases hp
    · intro hs
      unfold getNumInByte
      rw [hs, hempty]
      rfl

/-- C10 at the inputs `7` and the empty string. -/
theorem getNumInByte_panics_only_on_empty_witness :
    ((∃ sum, getNumInByte asciiToUpper (lit "7") = .ret sum none) ∨
      (∃ e, getNumInByte asciiToUpper (lit "7") = .ret 0 (some e))) ∧
    getNumInByte asciiToUpper [] = .panic :=
  ⟨((getNumInByte_panics_only_on_empty asciiToUpper asciiToUpper_laws (lit "7")).1
      (by decide)).2.2,
   (getNumInByte_panics_only_on_empty asciiToUpper asciiToUpper_laws []).2.2.mpr rfl⟩

theorem last_byte_eq (xs ys : GoString) (a b : Nat) (h : xs ++ [a] = ys ++ [b]) : a = b := by
  have := (List.append_inj' h rfl).2
  simpa using this

theorem not_decimal_of_ParseInt_error (t : GoString) (h : (ParseInt t).2 ≠ none) :
    ¬ ∃ n, IsDecimal t n ∧ fitsInt64 n := by
  rintro ⟨n, hn⟩
  exact h (congrArg Prod.snd ((ParseInt_ok_iff t n).mpr hn))

/-- C8, the claim as stated fails: `"10B"` is none of `<integer>`, `<integer>K`,
`<integer>M`, yet `getNumInByte` returns 10 bytes without error and `NewFileHook` builds a
hook with that threshold. -/
theorem getNumInByte_accepts_suffix_B :
    ¬ IsSizeForm (lit "10B") ∧
    getNumInByte asciiToUpper (lit "10B") = .ret 10 none ∧
    (∃ hook, NewFileHook plainEnv asciiToUpper (lit "10B") (lit "/var/log/huawei/csi.log")
        messageFormatter = .done ⟨some hook, none, []⟩ ∧ hook.logRotationThreshold = 10) := by
  refine ⟨?_, by decide, ⟨_, rfl, rfl⟩⟩
  rintro ⟨t, n, hdec, h⟩
  obtain ⟨init, c, ht, hc⟩ := IsDecimal_last t n hdec
  have h10B : lit "10B" = [49, 48] ++ [66] := by decide
  have hK : lit "K" = [75] := by decide
  have hM : lit "M" = [77] := by decide
  rw [h10B, hK, hM] at h
  rcases h with h | h | h
  · rw [ht] at h
    have := last_byte_eq _ _ _ _ h
    omega
  · have := last_byte_eq _ _ _ _ h
    omega
  · have := last_byte_eq _ _ _ _ h
    omega

/-- C8, amended: for every string whose upper-cased form is `init` followed by the byte
`c`, if the magnitude (the whole upper-cased string when `c` is a digit, otherwise `init`)
is not a decimal integer that fits in an `int64`, then `getNumInByte` returns an error
with count 0 and `NewFileHook` returns an error and no hook; and the suffix `B` is
accepted: the decimal string of an `int64` `n` followed by `B` yields `n` bytes. -/
theorem getNumInByte_rejects_bad_magnitude (toUpper : GoString → GoString)
    (hU : ToUpperLaws toUpper) (env : HookEnv) (logFilePath : GoString) (logFormat : Formatter)
    (s init : GoString) (c : Nat) (hs : toUpper s = init ++ [c])
    (hbad : ¬ ∃ n, IsDecimal (if 48 ≤ c ∧ c ≤ 57 then init ++ [c] else init) n ∧ fitsInt64 n) :
    (∃ e, getNumInByte toUpper s = .ret 0 (some e)) ∧
    (∃ r, NewFileHook env toUpper s logFilePath logFormat = .done r ∧
      r.hook = none ∧ r.err.isSome) ∧
    (∀ n, fitsInt64 n → getNumInByte toUpper (itoa n ++ lit "B") = .ret n none) := by
  obtain ⟨e, he⟩ := getNumInByte_error_of_bad_magnitude toUpper s init c hs hbad
  refine ⟨⟨e, he⟩, ?_, ?_⟩
  · unfold NewFileHook
    dsimp only
    split
    · exact ⟨_, rfl, rfl, rfl⟩
    · split
      · exact ⟨_, rfl, rfl, rfl⟩
      · rw [he]
        exact ⟨_, rfl, rfl, rfl⟩
  · intro n hn
    have hB : lit "B" = [66] := by decide
    rw [hB, getNumInByte_itoa_suffix toUpper hU n hn 66 (by omega)]
    simp

/-- C8, amended, at the inputs `1x0k` and `512B`. -/
theorem getNumInByte_rejects_bad_magnitude_witness :
    (∃ e, getNumInByte asciiToUpper (lit "1x0k") = .ret 0 (some e)) ∧
    (∃ r, NewFileHook plainEnv asciiToUpper (lit "1x0k") (lit "/var/log/huawei/csi.log")
      messageFormatter = .done r ∧ r.hook = none ∧ r.err.isSome) ∧
    getNumInByte asciiToUpper (itoa 512 ++ lit "B") = .ret 512 none :=
  have h := getNumInByte_rejects_bad_magnitude asciiToUpper asciiToUpper_laws plainEnv
    (lit "/var/log/huawei/csi.log") messageFormatter (lit "1x0k") (lit "1X0") 75 (by decide)
    (not_decimal_of_ParseInt_error _ (by decide))
  ⟨h.1, h.2.1, h.2.2 512 (by decide)⟩

/-! ## Facts about the formatter -/

theorem sprintf_line (ts tag msg : GoString) (pid : Int) :
    sprintf (lit "%s %d %s%s\n") [.str ts, .int pid, .str tag, .str msg] =
      ts ++ 32 :: (itoa pid ++ 32 :: (tag ++ (msg ++ [10]))) := by
  have hf : lit "%s %d %s%s\n" = [37, 115, 32, 37, 100, 32, 37, 115, 37, 115, 10] := by decide
  rw [hf]
  simp [sprintf, renderVerb, extraTail]

theorem getLogLevel_eq_tag (level : Level) :
    getLogLevel level = 91 :: (severityTag level ++ [93, 58, 32]) := by
  unfold getLogLevel severityTag
  split
  · decide
  · split
    · decide
    · split
      · decide
      · split
        · decide
        · split
          · decide
          · decide

theorem severityTag_bytes (level : Level) : ∀ b ∈ severityTag level, 65 ≤ b ∧ b ≤ 90 := by
  unfold severityTag
  split
  · decide
  · split
    · decide
    · split
      · decide
      · split
        · decide
        · split
          · decide
          · decide

theorem severityTag_unknown (level : Level) (h1 : level ≠ DebugLevel) (h2 : level ≠ InfoLevel)
    (h3 : level ≠ WarnLevel) (h4 : level ≠ ErrorLevel) (h5 : level ≠ FatalLevel) :
    severityTag level = lit "UNKNOWN" := by
  unfold severityTag
  simp only [h1, h2, h3, h4, h5, if_false]

/-- The bytes `Format` returns, for any buffer. -/
theorem Format_bytes (timeFormat : Time → GoString → GoString) (f : PlainTextFormatter)
    (entry : Entry) :
    PlainTextFormatter.Format timeFormat f entry =
      ((match entry.Buffer with
        | some buf => buf
        | none => []) ++
        (timeFormat entry.Time f.TimestampFormat ++ 32 :: (itoa f.pid ++ 32 ::
          (91 :: (severityTag entry.Level ++ [93, 58, 32]) ++ (entry.Message ++ [10])))),
        none) := by
  unfold PlainTextFormatter.Format
  rw [sprintf_line, getLogLevel_eq_tag]

/-! ## The formatter: claims -/

/-- C4: for every entry whose buffer is unset, `PlainTextFormatter.Format` returns no
error and exactly the bytes `<timestamp> <pid> [<SEVERITY>]: <message>\n`: the time of the
entry rendered with the pattern of the formatter, a space, the process id in decimal, a
space, the bracketed tag and `": "`, the message unchanged, one newline. The tag is
DEBUG, INFO, WARNING, ERROR, FATAL for those five levels and UNKNOWN for every other. -/
theorem Format_produces_line (timeFormat : Time → GoString → GoString)
    (f : PlainTextFormatter) (entry : Entry) (hb : entry.Buffer = none) :
    PlainTextFormatter.Format timeFormat f entry =
      (timeFormat entry.Time f.TimestampFormat ++ lit " " ++ itoa f.pid ++ lit " " ++
        lit "[" ++ severityTag entry.Level ++ lit "]: " ++ entry.Message ++ lit "\n", none) ∧
    severityTag DebugLevel = lit "DEBUG" ∧ severityTag InfoLevel = lit "INFO" ∧
    severityTag WarnLevel = lit "WARNING" ∧ severityTag ErrorLevel = lit "ERROR" ∧
    severityTag FatalLevel = lit "FATAL" ∧
    (entry.Level ≠ DebugLevel → entry.Level ≠ InfoLevel → entry.Level ≠ WarnLevel →
      entry.Level ≠ ErrorLevel → entry.Level ≠ FatalLevel →
      severityTag entry.Level = lit "UNKNOWN") := by
  refine ⟨?_, by decide, by decide, by decide, by decide, by decide,
    severityTag_unknown entry.Level⟩
  have h1 : lit " " = [32] := by decide
  have h2 : lit "[" = [91] := by decide
  have h3 : lit "]: " = [93, 58, 32] := by decide
  have h4 : lit "\n" = [10] := by decide
  rw [Format_bytes, hb, h1, h2, h3, h4]
  simp

/-- C4 at a Trace entry with the message `started`. -/
theorem Format_produces_line_witness :
    PlainTextFormatter.Format fixedClock plainFormatter ⟨0, TraceLevel, lit "started", none⟩ =
      (lit "2021-03-04 05:06:07.000008 4242 [UNKNOWN]: started\n", none) ∧
    severityTag TraceLevel = lit "UNKNOWN" := by
  have h := Format_produces_line fixedClock plainFormatter ⟨0, TraceLevel, lit "started", none⟩ rfl
  refine ⟨?_, h.2.2.2.2.2.2 (by decide) (by decide) (by decide) (by decide) (by decide)⟩
  rw [h.1]
  decide

/-! ## Reading a formatted record back -/

theorem takeLine_append (xs ys : GoString) (h : ∀ b ∈ xs, b ≠ 10) :
    takeLine (xs ++ 10 :: ys) = some xs := by
  induction xs with
  | nil => simp [takeLine]
  | cons x xs ih =>
    have hx : x ≠ 10 := h x (List.mem_cons_self _ _)
    rw [List.cons_append, takeLine, if_neg hx, ih (fun b hb => h b (List.mem_cons_of_mem _ hb))]

theorem dropWhile_until (p : Nat) (xs ys : GoString) (h : ∀ b ∈ xs, b ≠ p) :
    (xs ++ p :: ys).dropWhile (fun c => c != p) = p :: ys := by
  induction xs with
  | nil => simp [List.dropWhile]
  | cons x xs ih =>
    have hx : x ≠ p := h x (List.mem_cons_self _ _)
    rw [List.cons_append, List.dropWhile_cons]
    simp only [bne_iff_ne, ne_eq, hx, not_false_eq_true, if_true]
    exact ih (fun b hb => h b (List.mem_cons_of_mem _ hb))

theorem takeWhile_until (p : Nat) (xs ys : GoString) (h : ∀ b ∈ xs, b ≠ p) :
    (xs ++ p :: ys).takeWhile (fun c => c != p) = xs := by
  induction xs with
  | nil => simp [List.takeWhile]
  | cons x xs ih =>
    have hx : x ≠ p := h x (List.mem_cons_self _ _)
    rw [List.cons_append, List.takeWhile_cons]
    simp only [bne_iff_ne, ne_eq, hx, not_false_eq_true, if_true]
    rw [ih (fun b hb => h b (List.mem_cons_of_mem _ hb))]

/-- Splitting succeeds on `<head>[<tag>]: <message>` when the head has no `[` and the tag
no `]`. -/
theorem splitLine_record (head tag msg : GoString) (hh : ∀ b ∈ head, b ≠ 91)
    (ht : ∀ b ∈ tag, b ≠ 93) :
    splitLine (head ++ 91 :: (tag ++ [93, 58, 32] ++ msg)) = some (tag, msg) := by
  unfold splitLine
  simp only [dropWhile_until 91 head _ hh, List.drop_succ_cons, List.drop_zero]
  have e : tag ++ [93, 58, 32] ++ msg = tag ++ 93 :: (58 :: 32 :: msg) := by simp
  rw [e, dropWhile_until 93 tag _ ht, takeWhile_until 93 tag _ ht]

/-- The head of a record, `<timestamp> <pid> `, has no `[` and no line terminator when
the timestamp has none. -/
theorem head_bytes (ts : GoString) (pid : Int) (p : Nat) (hp : p = 91 ∨ p = 10)
    (hts : ∀ b ∈ ts, b ≠ p) : ∀ b ∈ ts ++ 32 :: (itoa pid ++ [32]), b ≠ p := by
  intro b hb
  simp only [List.mem_append, List.mem_cons, List.mem_singleton, List.not_mem_nil,
    or_false] at hb
  rcases hb with hb | hb | hb | hb
  · exact hts b hb
  · omega
  · rcases itoa_bytes pid b hb with h | h <;> omega
  · omega

/-- The output of `Format` for an unset buffer, cut into head, tag and message. -/
theorem Format_record (timeFormat : Time → GoString → GoString) (f : PlainTextFormatter)
    (t : Time) (level : Level) (msg : GoString) :
    (PlainTextFormatter.Format timeFormat f ⟨t, level, msg, none⟩).1 =
      (timeFormat t f.TimestampFormat ++ 32 :: (itoa f.pid ++ [32])) ++
        91 :: (severityTag level ++ [93, 58, 32] ++ msg) ++ [10] := by
  rw [Format_bytes]
  simp

/-- Handed over whole, a formatted record gives back its tag and its message, whatever
the message contains. -/
theorem parseRecord_Format (timeFormat : Time → GoString → GoString) (f : PlainTextFormatter)
    (t : Time) (level : Level) (msg : GoString)
    (hts : ∀ b ∈ timeFormat t f.TimestampFormat, b ≠ 91) :
    parseRecord (PlainTextFormatter.Format timeFormat f ⟨t, level, msg, none⟩).1 =
      some (severityTag level, msg) := by
  rw [Format_record]
  unfold parseRecord
  rw [List.getLast?_append_of_ne_nil _ (by simp), List.dropLast_concat]
  simp only [List.getLast?_singleton, if_true]
  exact splitLine_record _ _ _ (head_bytes _ _ 91 (Or.inl rfl) hts)
    (fun b hb => by have := severityTag_bytes level b hb; omega)

/-! ## The round trip: claims -/

/-- C5, the claim as stated fails: for the message `"a\nb"` the line read back from the
output of `Format` carries the tag `INFO` but the message `"a"`. -/
theorem parseLine_truncates_multiline_message :
    parseLine (PlainTextFormatter.Format fixedClock plainFormatter
      ⟨0, InfoLevel, lit "a\nb", none⟩).1 = some (lit "INFO", lit "a") ∧
    parseLine (PlainTextFormatter.Format fixedClock plainFormatter
      ⟨0, InfoLevel, lit "a\nb", none⟩).1 ≠ some (severityTag InfoLevel, lit "a\nb") := by
  constructor <;> decide

/-- C5, amended: for every timestamp, process id, severity and every message that
contains no line terminator, when the rendered timestamp contains neither `[` nor a line
terminator, parsing the line produced by `Format` (the output up to its line terminator,
split at the bracketed tag and the following `": "`) gives back the severity tag and the
message text. -/
theorem parseLine_Format_roundtrip (timeFormat : Time → GoString → GoString)
    (f : PlainTextFormatter) (t : Time) (level : Level) (msg : GoString)
    (hts : ∀ b ∈ timeFormat t f.TimestampFormat, b ≠ 91 ∧ b ≠ 10)
    (hmsg : ∀ b ∈ msg, b ≠ 10) :
    parseLine (PlainTextFormatter.Format timeFormat f ⟨t, level, msg, none⟩).1 =
      some (severityTag level, msg) := by
  rw [Format_record]
  unfold parseLine
  have hline : ∀ b ∈ (timeFormat t f.TimestampFormat ++ 32 :: (itoa f.pid ++ [32])) ++
      91 :: (severityTag level ++ [93, 58, 32] ++ msg), b ≠ 10 := by
    intro b hb
    rcases List.mem_append.mp hb with hb | hb
    · exact head_bytes _ _ 10 (Or.inr rfl) (fun b hb => (hts b hb).2) b hb
    · simp only [List.mem_cons, List.mem_append, List.not_mem_nil, or_false] at hb
      rcases hb with hb | (hb | hb) | hb
      · omega
      · have := severityTag_bytes level b hb; omega
      · omega
      · exact hmsg b hb
  have e : (timeFormat t f.TimestampFormat ++ 32 :: (itoa f.pid ++ [32])) ++
      91 :: (severityTag level ++ [93, 58, 32] ++ msg) ++ [10] =
      ((timeFormat t f.TimestampFormat ++ 32 :: (itoa f.pid ++ [32])) ++
      91 :: (severityTag level ++ [93, 58, 32] ++ msg)) ++ 10 :: [] := by simp
  rw [e, takeLine_append _ _ hline]
  exact splitLine_record _ _ _ (head_bytes _ _ 91 (Or.inl rfl) (fun b hb => (hts b hb).1))
    (fun b hb => by have := severityTag_bytes level b hb; omega)

/-- C5, amended, at an Error entry whose message itself contains a bracketed tag. -/
theorem parseLine_Format_roundtrip_witness :
    parseLine (PlainTextFormatter.Format fixedClock plainFormatter
      ⟨0, ErrorLevel, lit "disk [sda]: full", none⟩).1 =
      some (lit "ERROR", lit "disk [sda]: full") :=
  parseLine_Format_roundtrip fixedClock plainFormatter 0 ErrorLevel (lit "disk [sda]: full")
    (by decide) (by decide)

/-! ## The console hook: claims -/

/-- C3: `ConsoleHook.Fire` picks the stream by severity alone. For every entry the
formatter turns into a line: at level Debug, Info or Warning the one write goes to standard
output with exactly the line, standard error is untouched, and when standard output takes
the write the line is appended to it and `Fire` returns no error; at level Error or Fatal
the same holds with the two streams exchanged. -/
theorem ConsoleHook_Fire_routes (hook : ConsoleHook) (entry : Entry) (w : World)
    (line : GoString) (hfmt : hook.formatter entry = (line, none)) :
    ((entry.Level = DebugLevel ∨ entry.Level = InfoLevel ∨ entry.Level = WarnLevel) →
      (hook.Fire entry w).1.stderr = w.stderr ∧
      (hook.Fire entry w).1.stdout = (w.stdout.deliver (.write line)).1 ∧
      (hook.Fire entry w).2 = (w.stdout.deliver (.write line)).2 ∧
      (w.stdout.broken = false →
        (hook.Fire entry w).1.stdout.accepted = w.stdout.accepted ++ [.write line] ∧
        (hook.Fire entry w).2 = none)) ∧
    ((entry.Level = ErrorLevel ∨ entry.Level = FatalLevel) →
      (hook.Fire entry w).1.stdout = w.stdout ∧
      (hook.Fire entry w).1.stderr = (w.stderr.deliver (.write line)).1 ∧
      (hook.Fire entry w).2 = (w.stderr.deliver (.write line)).2 ∧
      (w.stderr.broken = false →
        (hook.Fire entry w).1.stderr.accepted = w.stderr.accepted ++ [.write line] ∧
        (hook.Fire entry w).2 = none)) := by
  constructor
  · intro hl
    have hsel : (entry.Level = DebugLevel ∨ entry.Level = InfoLevel ∨
        entry.Level = WarnLevel) := hl
    unfold ConsoleHook.Fire
    simp only [hsel, if_true, hfmt, World.write]
    cases hd : (w.stdout.deliver (.write line)).2 with
    | none =>
      refine ⟨rfl, rfl, rfl, ?_⟩
      intro hb
      simp [Stream.deliver, hb]
    | some e =>
      refine ⟨rfl, rfl, rfl, ?_⟩
      intro hb
      simp [Stream.deliver, hb] at hd
  · intro hl
    have hnot : ¬ (entry.Level = DebugLevel ∨ entry.Level = InfoLevel ∨
        entry.Level = WarnLevel) := by
      rcases hl with h | h <;> rw [h] <;> decide
    have hsel : (entry.Level = ErrorLevel ∨ entry.Level = FatalLevel ∨
        entry.Level = PanicLevel) := by tauto
    unfold ConsoleHook.Fire
    simp only [hnot, hsel, if_true, if_false, hfmt, World.write]
    cases hd : (w.stderr.deliver (.write line)).2 with
    | none =>
      refine ⟨rfl, rfl, rfl, ?_⟩
      intro hb
      simp [Stream.deliver, hb]
    | some e =>
      refine ⟨rfl, rfl, rfl, ?_⟩
      intro hb
      simp [Stream.deliver, hb] at hd

/-- C3 at an Info entry and a Fatal entry, on two empty working streams. -/
theorem ConsoleHook_Fire_routes_witness :
    (ConsoleHook.Fire ⟨PlainTextFormatter.Format fixedClock plainFormatter⟩
      ⟨0, InfoLevel, lit "ready", none⟩ emptyWorld).1.stdout.accepted =
        [.write (lit "2021-03-04 05:06:07.000008 4242 [INFO]: ready\n")] ∧
    (ConsoleHook.Fire ⟨PlainTextFormatter.Format fixedClock plainFormatter⟩
      ⟨0, InfoLevel, lit "ready", none⟩ emptyWorld).1.stderr = emptyWorld.stderr ∧
    (ConsoleHook.Fire ⟨PlainTextFormatter.Format fixedClock plainFormatter⟩
      ⟨0, FatalLevel, lit "lost", none⟩ emptyWorld).1.stderr.accepted =
        [.write (lit "2021-03-04 05:06:07.000008 4242 [FATAL]: lost\n")] ∧
    (ConsoleHook.Fire ⟨PlainTextFormatter.Format fixedClock plainFormatter⟩
      ⟨0, FatalLevel, lit "lost", none⟩ emptyWorld).1.stdout = emptyWorld.stdout :=
  have h1 := (ConsoleHook_Fire_routes ⟨PlainTextFormatter.Format fixedClock plainFormatter⟩
    ⟨0, InfoLevel, lit "ready", none⟩ emptyWorld
    (lit "2021-03-04 05:06:07.000008 4242 [INFO]: ready\n") (by decide)).1
    (Or.inr (Or.inl rfl))
  have h2 := (ConsoleHook_Fire_routes ⟨PlainTextFormatter.Format fixedClock plainFormatter⟩
    ⟨0, FatalLevel, lit "lost", none⟩ emptyWorld
    (lit "2021-03-04 05:06:07.000008 4242 [FATAL]: lost\n") (by decide)).2 (Or.inr rfl)
  ⟨(h1.2.2.2 rfl).1, h1.1, (h2.2.2.2 rfl).1, h2.1⟩

/-- C7, the claim as stated fails: Panic is a severity other than Debug, Info, Warning,
Error and Fatal, the formatter renders it as UNKNOWN, and `ConsoleHook.Fire` on a Panic
entry returns no error and writes the line to standard error. -/
theorem ConsoleHook_Fire_accepts_panic_level :
    PanicLevel ≠ DebugLevel ∧ PanicLevel ≠ InfoLevel ∧ PanicLevel ≠ WarnLevel ∧
    PanicLevel ≠ ErrorLevel ∧ PanicLevel ≠ FatalLevel ∧
    getLogLevel PanicLevel = lit "[UNKNOWN]: " ∧
    (ConsoleHook.Fire ⟨PlainTextFormatter.Format fixedClock plainFormatter⟩
      ⟨0, PanicLevel, lit "boom", none⟩ emptyWorld).2 = none ∧
    (ConsoleHook.Fire ⟨PlainTextFormatter.Format fixedClock plainFormatter⟩
      ⟨0, PanicLevel, lit "boom", none⟩ emptyWorld).1.stderr.accepted =
        [.write (lit "2021-03-04 05:06:07.000008 4242 [UNKNOWN]: boom\n")] := by
  refine ⟨by decide, by decide, by decide, by decide, by decide, by decide, ?_, ?_⟩ <;> decide

/-- C7, amended: for every severity other than Debug, Info, Warning, Error and Fatal the
formatter renders the tag UNKNOWN and returns no error. `ConsoleHook.Fire` on an entry of
such a severity other than Panic returns an error and leaves the world as it was, nothing
written to either stream; on a Panic entry that formats to a line, it writes the line to
standard error and nothing to standard output. -/
theorem unknown_severity_handling (timeFormat : Time → GoString → GoString)
    (f : PlainTextFormatter) (hook : ConsoleHook) (entry : Entry) (w : World)
    (h1 : entry.Level ≠ DebugLevel) (h2 : entry.Level ≠ InfoLevel)
    (h3 : entry.Level ≠ WarnLevel) (h4 : entry.Level ≠ ErrorLevel)
    (h5 : entry.Level ≠ FatalLevel) :
    getLogLevel entry.Level = lit "[UNKNOWN]: " ∧
    (PlainTextFormatter.Format timeFormat f entry).2 = none ∧
    (entry.Buffer = none → (PlainTextFormatter.Format timeFormat f entry).1 =
      timeFormat entry.Time f.TimestampFormat ++ lit " " ++ itoa f.pid ++
        lit " [UNKNOWN]: " ++ entry.Message ++ lit "\n") ∧
    (entry.Level ≠ PanicLevel → ∃ text, hook.Fire entry w = (w, some (.errorString text))) ∧
    (entry.Level = PanicLevel → ∀ line, hook.formatter entry = (line, none) →
      (hook.Fire entry w).1.stdout = w.stdout ∧
      (hook.Fire entry w).1.stderr = (w.stderr.deliver (.write line)).1 ∧
      (hook.Fire entry w).2 = (w.stderr.deliver (.write line)).2) := by
  have htag : getLogLevel entry.Level = lit "[UNKNOWN]: " := by
    unfold getLogLevel
    simp only [h1, h2, h3, h4, h5, if_false]
  have hnot : ¬ (entry.Level = DebugLevel ∨ entry.Level = InfoLevel ∨
      entry.Level = WarnLevel) := by tauto
  refine ⟨htag, rfl, ?_, ?_, ?_⟩
  · intro hb
    have e1 : lit " " = [32] := by decide
    have e2 : lit " [UNKNOWN]: " = 32 :: 91 :: (lit "UNKNOWN" ++ [93, 58, 32]) := by decide
    have e3 : lit "\n" = [10] := by decide
    rw [Format_bytes, hb, severityTag_unknown entry.Level h1 h2 h3 h4 h5, e1, e2, e3]
    simp
  · intro hp
    have hnot2 : ¬ (entry.Level = ErrorLevel ∨ entry.Level = FatalLevel ∨
        entry.Level = PanicLevel) := by tauto
    unfold ConsoleHook.Fire
    simp only [hnot, hnot2, if_false]
    exact ⟨_, rfl⟩
  · intro hp line hfmt
    have hsel : (entry.Level = ErrorLevel ∨ entry.Level = FatalLevel ∨
        entry.Level = PanicLevel) := Or.inr (Or.inr hp)
    unfold ConsoleHook.Fire
    simp only [hnot, hsel, if_true, if_false, hfmt, World.write]
    cases hd : (w.stderr.deliver (.write line)).2 <;> exact ⟨rfl, rfl, rfl⟩

/-- C7, amended, at a Trace entry. -/
theorem unknown_severity_handling_witness :
    getLogLevel TraceLevel = lit "[UNKNOWN]: " ∧
    (PlainTextFormatter.Format fixedClock plainFormatter
      ⟨0, TraceLevel, lit "step", none⟩).2 = none ∧
    (∃ text, ConsoleHook.Fire ⟨PlainTextFormatter.Format fixedClock plainFormatter⟩
      ⟨0, TraceLevel, lit "step", none⟩ emptyWorld = (emptyWorld, some (.errorString text))) :=
  have h := unknown_severity_handling fixedClock plainFormatter
    ⟨PlainTextFormatter.Format fixedClock plainFormatter⟩ ⟨0, TraceLevel, lit "step", none⟩
    emptyWorld (by decide) (by decide) (by decide) (by decide) (by decide)
  ⟨h.1, h.2.1, h.2.2.2.1 (by decide)⟩

/-! ## Facts about the file hook -/

theorem maybeDoLogfileRotation_eq (timeFormat : Time → GoString → GoString) (hook : FileHook)
    (now : Time) (w : World) :
    hook.maybeDoLogfileRotation timeFormat now w =
      if hook.logfileNeedsRotation w then
        w.rename hook.logFilePath (rotatedName timeFormat hook now)
      else (w, none) := by
  unfold FileHook.maybeDoLogfileRotation FileHook.rotateLocked rotatedName
  by_cases h : hook.logfileNeedsRotation w = true
  · simp only [h, if_true]
    rcases hr : w.rename hook.logFilePath
      (hook.logFilePath ++ timeFormat now (lit "20060102-150405")) with ⟨w1, _ | e⟩ <;> rfl
  · simp only [h, if_false]
    rfl

theorem rotateLocked_eq (timeFormat : Time → GoString → GoString) (hook : FileHook)
    (now : Time) (w : World) :
    hook.rotateLocked timeFormat now w = hook.maybeDoLogfileRotation timeFormat now w := by
  unfold FileHook.maybeDoLogfileRotation
  by_cases h : hook.logfileNeedsRotation w = true
  · simp only [h, if_true]
  · unfold FileHook.rotateLocked
    simp only [h, if_false]
    rfl

theorem World_rename_missing (w : World) (oldpath newpath : GoString)
    (h : w.fs.links oldpath = none) :
    w.rename oldpath newpath =
      ({ w with renames := w.renames ++ [⟨oldpath, newpath, false⟩] },
        some (.external ⟨lit "rename: no such file or directory", true⟩)) := by
  unfold World.rename FileSys.rename
  simp only [h]

theorem World_rename_present (w : World) (oldpath newpath : GoString) (ino : Nat)
    (h : w.fs.links oldpath = some ino) (hne : oldpath ≠ newpath) :
    w.rename oldpath newpath =
      ({ w with
          fs := { w.fs with links := fun p => if p = newpath then some ino
                                              else if p = oldpath then none else w.fs.links p }
          renames := w.renames ++ [⟨oldpath, newpath, true⟩] }, none) := by
  unfold World.rename FileSys.rename
  simp only [h, hne, if_false]

theorem Fire_hook (timeFormat : Time → GoString → GoString) (hook : FileHook) (i : FireInput)
    (w : World) : (hook.Fire timeFormat i w).1 = hook := by
  unfold FileHook.Fire
  rcases hf : hook.formatter i.entry with ⟨line, _ | e⟩
  · dsimp only
    rcases hm : hook.maybeDoLogfileRotation timeFormat i.now _ with ⟨w3, _ | e⟩ <;> rfl
  · rfl

theorem Fire_format_error (timeFormat : Time → GoString → GoString) (hook : FileHook)
    (i : FireInput) (w : World) (x : GoString) (e : GoError)
    (hf : hook.formatter i.entry = (x, some e)) :
    hook.Fire timeFormat i w =
      (hook, w.fprintfStderr (lit "Could not read log entry. %v") [.err e], some e) := by
  unfold FileHook.Fire
  rw [hf]

theorem Fire_formatted (timeFormat : Time → GoString → GoString) (hook : FileHook)
    (i : FireInput) (w : World) (line : GoString) (hf : hook.formatter i.entry = (line, none)) :
    hook.Fire timeFormat i w =
      (hook, hook.maybeDoLogfileRotation timeFormat i.now (afterWrite hook line i.accept w)) := by
  have haw : afterWrite hook line i.accept w =
      (match (w.fs.writeString hook.logFileHandle line i.accept).2 with
        | some _ =>
          { ({ w with fs := (w.fs.writeString hook.logFileHandle line i.accept).1 } : World) with
            stdlog := w.stdlog ++ [(lit "Write log message %s to %s error.",
              [.str line, .str hook.logFilePath])] }
        | none => { w with fs := (w.fs.writeString hook.logFileHandle line i.accept).1 }) := by
    unfold afterWrite
    cases (w.fs.writeString hook.logFileHandle line i.accept).2 <;> rfl
  unfold FileHook.Fire
  rw [hf, haw]
  dsimp only
  rcases hm : hook.maybeDoLogfileRotation timeFormat i.now _ with ⟨w3, _ | e⟩ <;> rfl

theorem afterWrite_links (hook : FileHook) (line : GoString) (accept : Nat) (w : World) :
    (afterWrite hook line accept w).fs.links = w.fs.links ∧
      (afterWrite hook line accept w).renames = w.renames := by
  unfold afterWrite FileSys.writeString
  cases hfile : w.fs.files hook.logFileHandle with
  | none => exact ⟨rfl, rfl⟩
  | some content =>
    dsimp only
    by_cases hshort : min accept line.length < line.length
    · simp [hshort]
    · simp [hshort]

theorem afterWrite_files (hook : FileHook) (line : GoString) (accept : Nat) (w : World)
    (content : GoString) (h : w.fs.files hook.logFileHandle = some content) :
    (afterWrite hook line accept w).fs.files hook.logFileHandle =
      some (content ++ line.take (min accept line.length)) := by
  unfold afterWrite FileSys.writeString
  rw [h]
  dsimp only
  by_cases hshort : min accept line.length < line.length
  · simp [hshort]
  · simp [hshort]

theorem afterWrite_attached (hook : FileHook) (line : GoString) (accept : Nat) (w : World)
    (h : Attached hook w) : Attached hook (afterWrite hook line accept w) := by
  obtain ⟨hl, content, hc⟩ := h
  exact ⟨by rw [(afterWrite_links hook line accept w).1]; exact hl,
    _, afterWrite_files hook line accept w content hc⟩

/-- With a valid handle, rotation is due exactly when the file has reached the
threshold. -/
theorem logfileNeedsRotation_iff (hook : FileHook) (w : World)
    (h : ∃ content, w.fs.files hook.logFileHandle = some content) :
    hook.logfileNeedsRotation w = true ↔ fileSize hook w ≥ hook.logRotationThreshold := by
  obtain ⟨content, hc⟩ := h
  unfold FileHook.logfileNeedsRotation FileSys.statSize fileSize
  rw [hc]
  simp

theorem rotatedName_ne (timeFormat : Time → GoString → GoString) (hook : FileHook) (now : Time)
    (h : timeFormat now (lit "20060102-150405") ≠ []) :
    hook.logFilePath ≠ rotatedName timeFormat hook now := by
  unfold rotatedName
  intro heq
  exact h (List.self_eq_append_right.mp heq)

theorem rotations_append_failed (w : World) (oldpath newpath : GoString) :
    rotations { w with renames := w.renames ++ [⟨oldpath, newpath, false⟩] } = rotations w := by
  simp [rotations, List.filter_append]

/-- Once the path of the hook is gone, `maybeDoLogfileRotation` cannot rotate: when the
check finds rotation due it calls `os.Rename`, the call fails and the error is returned. -/
theorem maybeDoLogfileRotation_detached (timeFormat : Time → GoString → GoString)
    (hook : FileHook) (now : Time) (w : World) (h : w.fs.links hook.logFilePath = none) :
    (hook.logfileNeedsRotation w = true →
      hook.maybeDoLogfileRotation timeFormat now w =
        ({ w with renames := w.renames ++
            [⟨hook.logFilePath, rotatedName timeFormat hook now, false⟩] },
          some (.external ⟨lit "rename: no such file or directory", true⟩))) ∧
    (hook.logfileNeedsRotation w = false →
      hook.maybeDoLogfileRotation timeFormat now w = (w, none)) := by
  rw [maybeDoLogfileRotation_eq]
  constructor
  · intro hn
    rw [if_pos hn, World_rename_missing w _ _ h]
  · intro hn
    rw [hn]
    rfl

/-- A call of `Fire` on a hook whose path is gone leaves the path gone and adds no
successful rename. -/
theorem Fire_detached (timeFormat : Time → GoString → GoString) (hook : FileHook)
    (i : FireInput) (w : World) (h : w.fs.links hook.logFilePath = none) :
    (hook.Fire timeFormat i w).2.1.fs.links hook.logFilePath = none ∧
      rotations (hook.Fire timeFormat i w).2.1 = rotations w := by
  rcases hf : hook.formatter i.entry with ⟨line, _ | e⟩
  · rw [Fire_formatted timeFormat hook i w line hf]
    have hl : (afterWrite hook line i.accept w).fs.links hook.logFilePath = none := by
      rw [(afterWrite_links hook line i.accept w).1]; exact h
    have hd := maybeDoLogfileRotation_detached timeFormat hook i.now _ hl
    have hrot : rotations (afterWrite hook line i.accept w) = rotations w := by
      unfold rotations; rw [(afterWrite_links hook line i.accept w).2]
    cases hn : hook.logfileNeedsRotation (afterWrite hook line i.accept w) with
    | true =>
      rw [hd.1 hn]
      exact ⟨hl, by rw [← hrot]; exact rotations_append_failed _ _ _⟩
    | false =>
      rw [hd.2 hn]
      exact ⟨hl, hrot⟩
  · rw [Fire_format_error timeFormat hook i w line e hf]
    exact ⟨h, rfl⟩

/-- One call of `Fire` on an attached hook: while the file stays below the threshold the
hook stays attached and nothing is renamed; a write that leaves the file at or above the
threshold is followed by one successful rename of the path, after which the path is gone. -/
theorem Fire_attached (timeFormat : Time → GoString → GoString) (hook : FileHook)
    (i : FireInput) (w : World) (hstamp : timeFormat i.now (lit "20060102-150405") ≠ [])
    (ha : Attached hook w) :
    (fileSize hook (hook.Fire timeFormat i w).2.1 < hook.logRotationThreshold →
      Attached hook (hook.Fire timeFormat i w).2.1 ∧
      (hook.Fire timeFormat i w).2.1.renames = w.renames) ∧
    ((hook.formatter i.entry).2 = none →
      fileSize hook (hook.Fire timeFormat i w).2.1 ≥ hook.logRotationThreshold →
      (hook.Fire timeFormat i w).2.1.fs.links hook.logFilePath = none ∧
      (hook.Fire timeFormat i w).2.1.renames =
        w.renames ++ [⟨hook.logFilePath, rotatedName timeFormat hook i.now, true⟩]) ∧
    ((Attached hook (hook.Fire timeFormat i w).2.1 ∧
        (hook.Fire timeFormat i w).2.1.renames = w.renames) ∨
      ((hook.Fire timeFormat i w).2.1.fs.links hook.logFilePath = none ∧
        (hook.Fire timeFormat i w).2.1.renames =
          w.renames ++ [⟨hook.logFilePath, rotatedName timeFormat hook i.now, true⟩])) := by
  rcases hf : hook.formatter i.entry with ⟨line, _ | e⟩
  · rw [Fire_formatted timeFormat hook i w line hf]
    have ha2 := afterWrite_attached hook line i.accept w ha
    have hiff := logfileNeedsRotation_iff hook _ ha2.2
    rw [maybeDoLogfileRotation_eq]
    by_cases hn : hook.logfileNeedsRotation (afterWrite hook line i.accept w) = true
    · rw [if_pos hn, World_rename_present _ _ _ _ ha2.1 (rotatedName_ne timeFormat hook i.now hstamp)]
      have hsize := hiff.mp hn
      have hgone : (if hook.logFilePath = rotatedName timeFormat hook i.now
          then some hook.logFileHandle
          else if hook.logFilePath = hook.logFilePath then none
          else (afterWrite hook line i.accept w).fs.links hook.logFilePath) = none := by
        rw [if_neg (rotatedName_ne timeFormat hook i.now hstamp), if_pos rfl]
      have hren : (afterWrite hook line i.accept w).renames = w.renames :=
        (afterWrite_links hook line i.accept w).2
      refine ⟨?_, ?_, ?_⟩
      · intro hlt
        exact absurd hsize (not_le.mpr hlt)
      · intro _ _
        exact ⟨hgone, by dsimp only; rw [hren]⟩
      · exact Or.inr ⟨hgone, by dsimp only; rw [hren]⟩
    · rw [if_neg hn]
      have hren : (afterWrite hook line i.accept w).renames = w.renames :=
        (afterWrite_links hook line i.accept w).2
      refine ⟨fun _ => ⟨ha2, hren⟩, ?_, Or.inl ⟨ha2, hren⟩⟩
      intro _ hge
      exact absurd (hiff.mpr hge) hn
  · rw [Fire_format_error timeFormat hook i w line e hf]
    refine ⟨fun _ => ⟨ha, rfl⟩, ?_, Or.inl ⟨ha, rfl⟩⟩
    intro hnone
    cases hnone

theorem worldAfter_nil (timeFormat : Time → GoString → GoString) (hook : FileHook) (w : World) :
    worldAfter timeFormat hook [] w = w := rfl

theorem worldAfter_cons (timeFormat : Time → GoString → GoString) (hook : FileHook)
    (i : FireInput) (rest : List FireInput) (w : World) :
    worldAfter timeFormat hook (i :: rest) w =
      worldAfter timeFormat hook rest (hook.Fire timeFormat i w).2.1 := by
  have hh := Fire_hook timeFormat hook i w
  unfold worldAfter
  rw [fireAll]
  rcases hF : hook.Fire timeFormat i w with ⟨h1, w1, e1⟩
  rw [hF] at hh
  dsimp only at hh ⊢
  rw [hh]

theorem worldAfter_append (timeFormat : Time → GoString → GoString) (hook : FileHook)
    (xs ys : List FireInput) (w : World) :
    worldAfter timeFormat hook (xs ++ ys) w =
      worldAfter timeFormat hook ys (worldAfter timeFormat hook xs w) := by
  induction xs generalizing w with
  | nil => rfl
  | cons x xs ih => rw [List.cons_append, worldAfter_cons, worldAfter_cons, ih]

/-- After the path is gone no sequence of `Fire` calls adds a successful rename. -/
theorem worldAfter_detached (timeFormat : Time → GoString → GoString) (hook : FileHook)
    (ins : List FireInput) (w : World) (h : w.fs.links hook.logFilePath = none) :
    (worldAfter timeFormat hook ins w).fs.links hook.logFilePath = none ∧
      rotations (worldAfter timeFormat hook ins w) = rotations w := by
  induction ins generalizing w with
  | nil => exact ⟨h, rfl⟩
  | cons i rest ih =>
    rw [worldAfter_cons]
    obtain ⟨h1, h2⟩ := Fire_detached timeFormat hook i w h
    obtain ⟨h3, h4⟩ := ih _ h1
    exact ⟨h3, h4.trans h2⟩

theorem rotations_append_ok (rs : List RenameCall) (oldpath newpath : GoString) :
    (rs ++ [(⟨oldpath, newpath, true⟩ : RenameCall)]).filter (fun r => r.ok) =
      rs.filter (fun r => r.ok) ++ [(⟨oldpath, newpath, true⟩ : RenameCall)] := by
  simp [List.filter_append]

/-- Any sequence of `Fire` calls on an attached hook performs at most one successful
rename. -/
theorem worldAfter_rotations_le (timeFormat : Time → GoString → GoString) (hook : FileHook)
    (hstamp : ∀ t, timeFormat t (lit "20060102-150405") ≠ [])
    (ins : List FireInput) (w : World) (ha : Attached hook w) :
    (rotations (worldAfter timeFormat hook ins w)).length ≤ (rotations w).length + 1 := by
  induction ins generalizing w with
  | nil => rw [worldAfter_nil]; omega
  | cons i rest ih =>
    rw [worldAfter_cons]
    rcases (Fire_attached timeFormat hook i w (hstamp i.now) ha).2.2 with ⟨ha1, hr⟩ | ⟨hg, hr⟩
    · have := ih _ ha1
      unfold rotations at this ⊢
      rw [hr] at this
      exact this
    · rw [(worldAfter_detached timeFormat hook rest _ hg).2]
      unfold rotations
      rw [hr, rotations_append_ok]
      simp only [List.length_append, List.length_singleton]
      exact le_refl _

/-- While every call leaves the file below the threshold, the hook stays attached and
nothing is renamed. -/
theorem worldAfter_below (timeFormat : Time → GoString → GoString) (hook : FileHook)
    (hstamp : ∀ t, timeFormat t (lit "20060102-150405") ≠ [])
    (ins : List FireInput) (w : World) (ha : Attached hook w)
    (hsmall : ∀ k, k < ins.length →
      fileSize hook (worldAfter timeFormat hook (ins.take (k + 1)) w) <
        hook.logRotationThreshold) :
    Attached hook (worldAfter timeFormat hook ins w) ∧
      (worldAfter timeFormat hook ins w).renames = w.renames := by
  induction ins generalizing w with
  | nil => exact ⟨ha, rfl⟩
  | cons i rest ih =>
    have h0 := hsmall 0 (by simp)
    rw [List.take_succ_cons, List.take_zero, worldAfter_cons, worldAfter_nil] at h0
    obtain ⟨ha1, hr1⟩ := (Fire_attached timeFormat hook i w (hstamp i.now) ha).1 h0
    rw [worldAfter_cons]
    have hrest := ih _ ha1 (fun k hk => by
      have := hsmall (k + 1) (by simp only [List.length_cons]; omega)
      rw [List.take_succ_cons, worldAfter_cons] at this
      exact this)
    exact ⟨hrest.1, hrest.2.trans hr1⟩

/-! ## The file hook: claims -/

/-- C2: for every file hook with threshold `T` whose handle is open on the file at its
path, and every sequence of `Fire` calls (only the hook renames the path): the sequence
performs at most one successful rename; while every call leaves the file below `T`
nothing is renamed; the first call that leaves the size at or above `T` renames the path
to path followed by the timestamp of that call, and whatever calls follow, that rename
stays the only successful one. -/
theorem rotation_happens_once (timeFormat : Time → GoString → GoString) (hook : FileHook)
    (w0 : World) (hstamp : ∀ t, timeFormat t (lit "20060102-150405") ≠ [])
    (ha : Attached hook w0) :
    (∀ ins, (rotations (worldAfter timeFormat hook ins w0)).length ≤
      (rotations w0).length + 1) ∧
    (∀ ins, (∀ k, k < ins.length →
        fileSize hook (worldAfter timeFormat hook (ins.take (k + 1)) w0) <
          hook.logRotationThreshold) →
      (worldAfter timeFormat hook ins w0).renames = w0.renames) ∧
    (∀ (pre : List FireInput) (i : FireInput) (post : List FireInput),
      (hook.formatter i.entry).2 = none →
      (∀ k, k < pre.length →
        fileSize hook (worldAfter timeFormat hook (pre.take (k + 1)) w0) <
          hook.logRotationThreshold) →
      fileSize hook (worldAfter timeFormat hook (pre ++ [i]) w0) ≥ hook.logRotationThreshold →
      (worldAfter timeFormat hook pre w0).renames = w0.renames ∧
      (worldAfter timeFormat hook (pre ++ [i]) w0).renames =
        w0.renames ++ [⟨hook.logFilePath, rotatedName timeFormat hook i.now, true⟩] ∧
      rotations (worldAfter timeFormat hook (pre ++ i :: post) w0) =
        rotations w0 ++ [⟨hook.logFilePath, rotatedName timeFormat hook i.now, true⟩]) := by
  refine ⟨fun ins => worldAfter_rotations_le timeFormat hook hstamp ins w0 ha,
    fun ins hsmall => (worldAfter_below timeFormat hook hstamp ins w0 ha hsmall).2, ?_⟩
  intro pre i post hfmt hsmall hcross
  obtain ⟨ha1, hr1⟩ := worldAfter_below timeFormat hook hstamp pre w0 ha hsmall
  rw [worldAfter_append, worldAfter_cons, worldAfter_nil] at hcross
  obtain ⟨hgone, hr2⟩ :=
    (Fire_attached timeFormat hook i _ (hstamp i.now) ha1).2.1 hfmt hcross
  refine ⟨hr1, ?_, ?_⟩
  · rw [worldAfter_append, worldAfter_cons, worldAfter_nil, hr2, hr1]
  · rw [worldAfter_append, worldAfter_cons,
      (worldAfter_detached timeFormat hook post _ hgone).2]
    unfold rotations
    rw [hr2, hr1, rotations_append_ok]

theorem secondsClock_nonempty : ∀ t, secondsClock t (lit "20060102-150405") ≠ [] := by
  intro t
  unfold secondsClock
  simp

theorem sampleWorld_attached : Attached sampleHook sampleWorld :=
  ⟨by decide, [], by decide⟩

/-- C2 at three calls that write 4, 8 and 4 bytes to a hook rotating at 10 bytes: the
second call rotates, the third does not. -/
theorem rotation_happens_once_witness :
    rotations (worldAfter secondsClock sampleHook
      [⟨⟨0, InfoLevel, lit "four", none⟩, 5, 100⟩,
       ⟨⟨0, InfoLevel, lit "eight888", none⟩, 7, 100⟩,
       ⟨⟨0, InfoLevel, lit "more", none⟩, 9, 100⟩] sampleWorld) =
      [⟨lit "/var/log/huawei/csi.log", lit "/var/log/huawei/csi.log20210304-050607", true⟩] :=
  ((rotation_happens_once secondsClock sampleHook sampleWorld secondsClock_nonempty
    sampleWorld_attached).2.2
    [⟨⟨0, InfoLevel, lit "four", none⟩, 5, 100⟩] ⟨⟨0, InfoLevel, lit "eight888", none⟩, 7, 100⟩
    [⟨⟨0, InfoLevel, lit "more", none⟩, 9, 100⟩] rfl
    (fun k hk => by
      have hk0 : k = 0 := by simpa using hk
      subst hk0
      decide)
    (by decide)).2.2

/-- The error of `maybeDoLogfileRotation` is nil or the error of a failed rename, in which
case the failed call is the last one recorded. -/
theorem maybeDoLogfileRotation_error (timeFormat : Time → GoString → GoString)
    (hook : FileHook) (now : Time) (w : World) :
    (hook.maybeDoLogfileRotation timeFormat now w).2 = none ∨
    ((hook.maybeDoLogfileRotation timeFormat now w).2 =
        some (.external ⟨lit "rename: no such file or directory", true⟩) ∧
      (hook.maybeDoLogfileRotation timeFormat now w).1.renames =
        w.renames ++ [⟨hook.logFilePath, rotatedName timeFormat hook now, false⟩]) := by
  rw [maybeDoLogfileRotation_eq]
  by_cases hn : hook.logfileNeedsRotation w = true
  · rw [if_pos hn]
    cases hl : w.fs.links hook.logFilePath with
    | none =>
      rw [World_rename_missing w _ _ hl]
      exact Or.inr ⟨rfl, rfl⟩
    | some ino =>
      left
      unfold World.rename FileSys.rename
      rw [hl]
      dsimp only
      by_cases hsame : hook.logFilePath = rotatedName timeFormat hook now
      · rw [if_pos hsame]
      · rw [if_neg hsame]
  · rw [if_neg hn]
    exact Or.inl rfl

/-- C6: a write failure in `FileHook.Fire` does not raise. For every entry the formatter
turns into a line, if appending the line to the file fails: the failure is reported on the
standard logger, `Fire` goes on to the rotation check, and what it returns is what
`maybeDoLogfileRotation` returns, nil unless the rename of the rotation fails; the hook
(path, handle, threshold) is the same afterwards. -/
theorem Fire_survives_write_failure (timeFormat : Time → GoString → GoString)
    (hook : FileHook) (i : FireInput) (w : World) (line : GoString)
    (hfmt : hook.formatter i.entry = (line, none))
    (hfail : (w.fs.writeString hook.logFileHandle line i.accept).2 ≠ none) :
    (hook.Fire timeFormat i w).1 = hook ∧
    (hook.Fire timeFormat i w).2 =
      hook.maybeDoLogfileRotation timeFormat i.now (afterWrite hook line i.accept w) ∧
    (afterWrite hook line i.accept w).stdlog = w.stdlog ++
      [(lit "Write log message %s to %s error.", [.str line, .str hook.logFilePath])] ∧
    ((hook.Fire timeFormat i w).2.2 = none ∨
      ((hook.Fire timeFormat i w).2.2 =
          some (.external ⟨lit "rename: no such file or directory", true⟩) ∧
        (hook.Fire timeFormat i w).2.1.renames =
          w.renames ++ [⟨hook.logFilePath, rotatedName timeFormat hook i.now, false⟩])) := by
  have hF := Fire_formatted timeFormat hook i w line hfmt
  refine ⟨Fire_hook timeFormat hook i w, by rw [hF], ?_, ?_⟩
  · unfold afterWrite
    cases hw : (w.fs.writeString hook.logFileHandle line i.accept).2 with
    | none => exact absurd hw hfail
    | some e => rfl
  · rw [hF]
    dsimp only
    have := maybeDoLogfileRotation_error timeFormat hook i.now (afterWrite hook line i.accept w)
    rw [(afterWrite_links hook line i.accept w).2] at this
    exact this

/-- C6 at a write of five bytes of which the file takes two. -/
theorem Fire_survives_write_failure_witness :
    (sampleHook.Fire secondsClock ⟨⟨0, InfoLevel, lit "hello", none⟩, 5, 2⟩ sampleWorld).1 =
      sampleHook ∧
    (sampleHook.Fire secondsClock ⟨⟨0, InfoLevel, lit "hello", none⟩, 5, 2⟩ sampleWorld).2.2 =
      none ∧
    (sampleHook.Fire secondsClock ⟨⟨0, InfoLevel, lit "hello", none⟩, 5, 2⟩
      sampleWorld).2.1.fs.files 3 = some (lit "he") :=
  have h := Fire_survives_write_failure secondsClock sampleHook
    ⟨⟨0, InfoLevel, lit "hello", none⟩, 5, 2⟩ sampleWorld (lit "hello") rfl (by decide)
  ⟨h.1, by decide, by decide⟩

/-- C9, the code at a rotated file: after `sampleHook` has rotated its file (one successful
rename), the file behind the handle still has its twelve bytes, so the check finds rotation
due again; the section under the lock calls `os.Rename` a second time, the call fails
because the path is gone, and `maybeDoLogfileRotation` returns that error. -/
theorem maybeDoLogfileRotation_after_rotation :
    rotations rotatedWorld =
      [⟨lit "/var/log/huawei/csi.log", lit "/var/log/huawei/csi.log20210304-050607", true⟩] ∧
    fileSize sampleHook rotatedWorld = 12 ∧
    sampleHook.logfileNeedsRotation rotatedWorld = true ∧
    (sampleHook.rotateLocked secondsClock 8 rotatedWorld).2 =
      some (.external ⟨lit "rename: no such file or directory", true⟩) ∧
    (sampleHook.rotateLocked secondsClock 8 rotatedWorld).1.renames =
      [⟨lit "/var/log/huawei/csi.log", lit "/var/log/huawei/csi.log20210304-050607", true⟩,
       ⟨lit "/var/log/huawei/csi.log", lit "/var/log/huawei/csi.log20210304-050608", false⟩] ∧
    (sampleHook.maybeDoLogfileRotation secondsClock 8 rotatedWorld).2 =
      some (.external ⟨lit "rename: no such file or directory", true⟩) := by
  refine ⟨?_, ?_, ?_, ?_, ?_, ?_⟩ <;> decide

end HuaweiLog
